import Mathlib

/-!
# Athena: SASL negotiation, ISUPPORT parsing and the channel store

A shallow embedding of `src/caps/sasl.js` (class `Sasl`) and of the handlers
of `src/core.js` (class `Core`) that parse `ISUPPORT` and keep the channels
and their users, followed by the properties proved about them.

Conventions of the embedding.

* A JavaScript string is a Lean `String`.  Lean strings are sequences of
  Unicode scalar values, so every Lean string is a well-formed JavaScript
  string.  The one place where code points and UTF-16 code units part, the
  index `value[1][count]` of the `PREFIX` branch, is marked as not modelled
  when a character outside the Basic Multilingual Plane is in reach.
* `bot.send(line)` is the transport collaborator; it is modelled by appending
  `line` to the log `sent` of the session.
* An `async` method that throws is modelled by returning the state as mutated
  up to the `throw` together with the message of the `Error`.
* `retries` is a JavaScript number used as a counter; it is a `Nat` here.
* A JavaScript object used as a map is the list of its own properties in
  insertion order; a property of an object under `ISUPPORT` holds a string or
  `undefined`.
* The handlers of `Core` are arrow functions inside a class body, hence
  strict mode code: writing a property on a primitive string raises a
  `TypeError`.  A handler that raises leaves the state as mutated so far, and
  the next event is handled on that state.
* `partition` comes from the library `node-python-funcs` and is taken to
  behave as Python's `str.partition`.
* `this.channels` and `this.state.channels` are one object.  Its methods
  `add_entry` and `change_attr` are outside `src/`: a call of `add_entry` is
  recorded with its arguments, its effect on the store is not modelled.  A
  lookup `object[key]` that would be answered by the prototype chain is
  marked as not modelled.
* `strip_formatting` and the value of `Date.now()` are parameters.
* `Array.prototype.sort` is the TimSort of V8 7.0 and later (Node.js 11 and
  later) on arrays of fewer than 64 elements.  ECMAScript leaves the order
  implementation-defined when the comparator is not consistent, as with a
  comparator that answers a boolean.
-/

namespace Athena

/-! ## Strings -/

/-- `String.prototype.toUpperCase`, on the ASCII range: the letters `a`..`z`
are mapped to `A`..`Z`, every other character is unchanged.  JavaScript also
maps letters outside ASCII (`é` to `É`, `ß` to `SS`), so for a string with
such a letter this is not what JavaScript computes; the strings `plain` and
`external`, which are the methods `Sasl` implements, are ASCII. -/
def toUpperCase (s : String) : String :=
  String.mk (s.data.map Char.toUpper)

/-- The UTF-8 encoding of one character, as a list of byte values. -/
def utf8Char (c : Char) : List Nat :=
  let n := c.toNat
  if n < 0x80 then [n]
  else if n < 0x800 then [0xC0 + n / 0x40, 0x80 + n % 0x40]
  else if n < 0x10000 then [0xE0 + n / 0x1000, 0x80 + n / 0x40 % 0x40, 0x80 + n % 0x40]
  else [0xF0 + n / 0x40000, 0x80 + n / 0x1000 % 0x40, 0x80 + n / 0x40 % 0x40, 0x80 + n % 0x40]

/-- `Buffer.from(s)`: the bytes of the UTF-8 encoding of `s`. -/
def bufferFrom (s : String) : List Nat :=
  s.data.flatMap utf8Char

/-- The base64 alphabet of RFC 4648. -/
def base64Alphabet : List Char :=
  "ABCDEFGHIJKLMNOPQRSTUVWXYZabcdefghijklmnopqrstuvwxyz0123456789+/".data

/-- The base64 digit of a 6-bit value. -/
def base64Digit (n : Nat) : Char :=
  base64Alphabet.getD n 'A'

/-- Base64 of a byte list, three bytes to four digits, padded with `=`. -/
def base64Chars : List Nat → List Char
  | [] => []
  | [a] => [base64Digit (a / 4), base64Digit (a % 4 * 16), '=', '=']
  | [a, b] =>
    [base64Digit (a / 4), base64Digit (a % 4 * 16 + b / 16), base64Digit (b % 16 * 4), '=']
  | a :: b :: c :: rest =>
    base64Digit (a / 4) :: base64Digit (a % 4 * 16 + b / 16) ::
      base64Digit (b % 16 * 4 + c / 64) :: base64Digit (c % 64) :: base64Chars rest

/-- `buf.toString('base64')`. -/
def toBase64 (bytes : List Nat) : String :=
  String.mk (base64Chars bytes)

/-- The 6-bit value of a base64 digit: its position in the alphabet. -/
def base64Value (c : Char) : Nat :=
  base64Alphabet.indexOf c

/-- Base64 decoding, four digits to three bytes, used to check `toBase64`
against its inverse. -/
def base64Decode : List Char → List Nat
  | c1 :: c2 :: c3 :: c4 :: rest =>
    if c3 = '=' then
      [base64Value c1 * 4 + base64Value c2 / 16]
    else if c4 = '=' then
      [base64Value c1 * 4 + base64Value c2 / 16,
        base64Value c2 % 16 * 16 + base64Value c3 / 4]
    else
      (base64Value c1 * 4 + base64Value c2 / 16) ::
        (base64Value c2 % 16 * 16 + base64Value c3 / 4) ::
        (base64Value c3 % 4 * 64 + base64Value c4) :: base64Decode rest
  | _ => []

/-! ## Events -/

/-- The part of a parsed IRC event that the handlers below read. -/
structure Event where
  arguments : List String
deriving DecidableEq, Repr

/-! ## `src/caps/sasl.js` -/

/-- The fields of a `Sasl` instance, and the lines it has handed to
`bot.send`, oldest first. -/
structure Sasl where
  username : String
  password : String
  method : String
  retries : Nat
  sent : List String
deriving DecidableEq, Repr

/-- What a method call leaves behind: the session as mutated, and the message
of the `Error` it threw, if it threw. -/
structure SaslResult where
  session : Sasl
  error : Option String
deriving DecidableEq, Repr

/-- `bot.send(line)`. -/
def Sasl.send (s : Sasl) (line : String) : Sasl :=
  { s with sent := s.sent ++ [line] }

/-- `new Sasl(username, password, method)`: `method || 'plain'` falls back to
`'plain'` when the argument is missing or the empty string. -/
def Sasl.constructor (username password : String) (method : Option String) : Sasl :=
  { username := username
    password := password
    method := match method with
      | none => "plain"
      | some m => if m = "" then "plain" else m
    retries := 0
    sent := [] }

/-- `Sasl.run(bot, args)`: `args || ['EXTERNAL', 'PLAIN']`, then the two
`indexOf` tests. -/
def Sasl.run (s : Sasl) (args : Option (List String)) : SaslResult :=
  let mechanisms := args.getD ["EXTERNAL", "PLAIN"]
  if toUpperCase s.method ∈ mechanisms then
    if s.method ∈ ["plain", "external"] then
      ⟨s.send ("AUTHENTICATE " ++ toUpperCase s.method), none⟩
    else
      ⟨s, some "Not implemented yet"⟩
  else
    ⟨s, some "Not supported by server"⟩

/-- `Sasl.on_authenticate(event)`.  The local `password` stays `undefined`
when the method is neither `'plain'` nor `'external'`, and the template
literal then prints it as `undefined`. -/
def Sasl.on_authenticate (s : Sasl) (event : Event) : SaslResult :=
  if event.arguments.head? = some "+" then
    let password : Option String :=
      if s.method = "plain" then
        some (toBase64 (bufferFrom (s.username ++ "\x00" ++ s.username ++ "\x00" ++ s.password)))
      else if s.method = "external" then
        some "+"
      else
        none
    ⟨s.send ("AUTHENTICATE " ++ password.getD "undefined"), none⟩
  else
    ⟨s, none⟩

/-- `Sasl.on_saslfailed(event)`. -/
def Sasl.on_saslfailed (s : Sasl) (_event : Event) : SaslResult :=
  let s := { s with retries := s.retries + 1 }
  if s.method = "external" then
    if s.retries = 2 then
      ⟨({ s with retries := 1, method := "plain" } : Sasl).send "AUTHENTICATE PLAIN", none⟩
    else
      ⟨s.send "AUTHENTICATE EXTERNAL", none⟩
  else if s.method = "plain" then
    if s.retries ≠ 2 then
      ⟨s.send "AUTHENTICATE PLAIN", none⟩
    else
      ⟨s.send "AUTHENTICATE *", some "SASL authentication failed!"⟩
  else
    ⟨s, none⟩

/-- `Sasl.on_saslsuccess(event)`. -/
def Sasl.on_saslsuccess (s : Sasl) (_event : Event) : SaslResult :=
  ⟨s.send "CAP END", none⟩

/-- A run of `on_saslfailed` events delivered to a session, one after the
other, up to and including the first call that throws. -/
def Sasl.failures (s : Sasl) : List Event → SaslResult
  | [] => ⟨s, none⟩
  | e :: es =>
    match s.on_saslfailed e with
    | ⟨s', none⟩ => Sasl.failures s' es
    | ⟨s', some err⟩ => ⟨s', some err⟩

/-- A run of `on_saslfailed` events delivered to a session with nothing
stopping the delivery after a call has thrown: every event is handled. -/
def Sasl.failuresAll (s : Sasl) : List Event → Sasl
  | [] => s
  | e :: es => Sasl.failuresAll (s.on_saslfailed e).session es

/-- Whether an outbound line is an `AUTHENTICATE` command. -/
def isAuthenticate (line : String) : Bool :=
  "AUTHENTICATE ".data.isPrefixOf line.data

/-! ## `src/core.js`: helpers -/

/-- `Array.prototype.remove(index)` as `src/core.js` installs it: a new array
holding every element whose position differs from `index`. -/
def remove {α : Type} : List α → Nat → List α
  | [], _ => []
  | _ :: xs, 0 => xs
  | x :: xs, n + 1 => x :: remove xs n

/-- `partition(str, sep)` of the library `node-python-funcs`, which mirrors
Python's `str.partition`, for a one-character separator: the part before the
first separator, the separator, the part after it; or the string and two
empty strings when the separator does not occur. -/
def partition (str : String) (sep : Char) : List String :=
  if sep ∈ str.data then
    [String.mk (str.data.takeWhile (fun c => c != sep)), String.singleton sep,
      String.mk ((str.data.dropWhile (fun c => c != sep)).drop 1)]
  else
    [str, "", ""]

/-- `String.prototype.split` with a one-character separator, on characters. -/
def splitChars (sep : Char) : List Char → List (List Char)
  | [] => [[]]
  | c :: cs =>
    if c = sep then [] :: splitChars sep cs
    else
      match splitChars sep cs with
      | [] => [[c]]
      | seg :: segs => (c :: seg) :: segs

/-- `str.split(sep)` for a one-character separator. -/
def split (str : String) (sep : Char) : List String :=
  (splitChars sep str.data).map String.mk

/-- `str.replace(c, '')` with a string pattern: the first occurrence of the
character is removed. -/
def removeFirst (c : Char) : List Char → List Char
  | [] => []
  | x :: xs => if x = c then xs else x :: removeFirst c xs

/-- Array destructuring `[a, b] = list`: a missing position is `undefined`. -/
def destructure2 (list : List String) : Option String × Option String :=
  (list.get? 0, list.get? 1)

/-- The string cut after the last occurrence of `c`, when `c` occurs. -/
def splitAfterLast (c : Char) : List Char → Option (List Char × List Char)
  | [] => none
  | x :: xs =>
    match splitAfterLast c xs with
    | some (a, b) => some (x :: a, b)
    | none => if x = c then some ([x], xs) else none

/-- The line terminators, which `.` of a regular expression does not match. -/
def isLineTerminator (c : Char) : Bool :=
  c = '\n' || c = '\r' || c = '\u2028' || c = '\u2029'

/-- The match of `^(.*o)(.*h)?(.*)$` against the whole of `s`: the three
capture groups, the second being `undefined` when it took no part.  Each
`.*` is greedy, so the first group ends at the last `o` and the second, when
an `h` follows that `o`, at the last `h`. -/
def matchLevels (s : List Char) : Option (List Char × Option (List Char) × List Char) :=
  if s.any isLineTerminator then none
  else
    match splitAfterLast 'o' s with
    | none => none
    | some (g1, r) =>
      match splitAfterLast 'h' r with
      | some (g2, g3) => some (g1, some g2, g3)
      | none => some (g1, none, r)

/-- `s.split(new RegExp('^(.*o)(.*h)?(.*)$'))`: the pattern can only match at
position 0 and then consumes the whole string, which leaves an empty string
on either side of the captures; without a match the result is `[s]`. -/
def splitLevels (s : List Char) : List (Option String) :=
  match matchLevels s with
  | some (g1, g2, g3) =>
    [some "", some (String.mk g1), g2.map String.mk, some (String.mk g3), some ""]
  | none => [some (String.mk s)]

/-- `list.slice(1, -1)`. -/
def slice1 {α : Type} (list : List α) : List α :=
  (list.drop 1).dropLast

/-! ## `src/core.js`: the registry -/

/-- What `ISUPPORT` holds under a capability name: a string, an array of
strings, or an object whose properties are strings or `undefined`. -/
inductive Value where
  | str (s : String)
  | arr (items : List String)
  | obj (props : List (String × Option String))
deriving DecidableEq, Repr

/-- An entry of `server.prefixes`. -/
structure PrefixEntry where
  mode : String
  level : String
deriving DecidableEq, Repr

/-- The object `state.server`: `ISUPPORT`, and `prefixes`, which is
`undefined` until a `PREFIX` token has been handled.  An object is the list
of its own properties in insertion order. -/
structure Server where
  ISUPPORT : List (String × Value)
  prefixes : Option (List (String × PrefixEntry))
deriving DecidableEq, Repr

/-- Reading `object[key]`. -/
def getProp {β : Type} : List (String × β) → String → Option β
  | [], _ => none
  | (k, v) :: rest, key => if k = key then some v else getProp rest key

/-- Writing `object[key] = v`: an existing property keeps its place. -/
def setProp {β : Type} : List (String × β) → String → β → List (String × β)
  | [], key, v => [(key, v)]
  | (k, w) :: rest, key, v =>
    if k = key then (key, v) :: rest else (k, w) :: setProp rest key v

/-- `Object.keys(object)`. -/
def keys {β : Type} (object : List (String × β)) : List String :=
  object.map Prod.fst

/-- `isObject(thing)` of `src/core.js`:
`thing instanceof Object && !(thing instanceof Array)`. -/
def isObject : Option Value → Bool
  | some (.obj _) => true
  | _ => false

/-- How a handler ends: it ran to completion; or it raised a `TypeError`,
leaving the state as mutated so far; or it left the fragment of JavaScript
modelled here (a property other than `__proto__` written on an array, a
token named `__proto__` whose value is not a list, an index into a string
holding characters outside the Basic Multilingual Plane). -/
inductive Outcome where
  | ok (server : Server)
  | threw (server : Server)
  | unmodelled
deriving DecidableEq, Repr

/-- Sequencing: the rest of the handler runs only after normal completion. -/
def Outcome.andThen (o : Outcome) (f : Server → Outcome) : Outcome :=
  match o with
  | .ok sv => f sv
  | other => other

/-- The state a handler leaves, when the outcome is modelled. -/
def Outcome.server? : Outcome → Option Server
  | .ok sv => some sv
  | .threw sv => some sv
  | .unmodelled => none

/-- The statement `this.ISUPPORT[name][name1] = value1`.  The key `undefined`
is the property name `'undefined'`.  On `undefined` the write raises a
`TypeError`.  Otherwise a write to `__proto__` reaches the setter of
`Object.prototype`, which ignores a string and `undefined`: nothing changes.
Any other key is written on an object, and raises a `TypeError` on a
primitive string, the body of a class being strict mode code. -/
def assignSub (sv : Server) (name : String) (name1 value1 : Option String) : Outcome :=
  match getProp sv.ISUPPORT name with
  | none => .threw sv
  | some entry =>
    let key := name1.getD "undefined"
    if key = "__proto__" then .ok sv
    else
      match entry with
      | .obj props =>
        .ok { sv with ISUPPORT := setProp sv.ISUPPORT name (.obj (setProp props key value1)) }
      | .arr _ => .unmodelled
      | .str _ => .threw sv

/-- The two statements of the list branch:
`if (Object.keys(this.ISUPPORT).includes(name) && isObject(this.ISUPPORT[name])) this.ISUPPORT[name] = [];`
and `this.ISUPPORT[name].push(param1)`; `push` exists on arrays only. -/
def pushItem (sv : Server) (name param1 : String) : Outcome :=
  let sv : Server :=
    if name ∈ keys sv.ISUPPORT ∧ isObject (getProp sv.ISUPPORT name) = true then
      { sv with ISUPPORT := setProp sv.ISUPPORT name (.arr []) }
    else sv
  match getProp sv.ISUPPORT name with
  | some (.arr items) =>
    .ok { sv with ISUPPORT := setProp sv.ISUPPORT name (.arr (items ++ [param1])) }
  | _ => .threw sv

/-- The loop `for (let param1 of value.split(','))`. -/
def commaItems (name value : String) : Server → List String → Outcome
  | sv, [] => .ok sv
  | sv, param1 :: rest =>
    if ')' ∈ value.data then
      let pair : Option String × Option String :=
        if ')' ∈ param1.data then destructure2 (remove (partition param1 ':') 1)
        else (none, none)
      (assignSub sv name pair.1 pair.2).andThen fun sv' => commaItems name value sv' rest
    else
      (pushItem sv name param1).andThen fun sv' => commaItems name value sv' rest

/-- The loop `for (let level of Object.entries(levels))` up to its `break`:
the name of the first level whose letters contain `mode`, `some none` when
there is none, and `none` when an `undefined` level is reached first, on
which `level[1].indexOf` raises a `TypeError`. -/
def findLevel (mode : Char) : List (String × Option String) → Option (Option String)
  | [] => some none
  | (_, none) :: _ => none
  | (level, some letters) :: rest =>
    if mode ∈ letters.data then some (some level) else findLevel mode rest

/-- Whether a character is one UTF-16 code unit. -/
def isBMP (c : Char) : Bool :=
  c.toNat < 0x10000

/-- The loop `for (let mode of value[0])` of the `PREFIX` branch; `symbols`
is `value[1]` and `count` the running index into it. -/
def prefixModes (name : String) (levels : List (String × Option String))
    (symbols : Option String) : Server → List Char → Nat → Outcome
  | sv, [], _ => .ok sv
  | sv, mode :: rest, count =>
    match symbols with
    | none => .threw sv
    | some syms =>
      if (syms.data.take (count + 1)).all isBMP then
        let value1 : Option String := (syms.data.get? count).map String.singleton
        match findLevel mode levels with
        | none => .threw sv
        | some found =>
          let sv1 : Server :=
            match found with
            | some level =>
              { sv with prefixes := some (setProp (sv.prefixes.getD [])
                  (value1.getD "undefined") ⟨String.singleton mode, level⟩) }
            | none => sv
          (assignSub sv1 name (some (String.singleton mode)) value1).andThen
            fun sv' => prefixModes name levels symbols sv' rest (count + 1)
      else .unmodelled

/-- The properties the `PREFIX` loop writes under `ISUPPORT[name]`, in the
order of the writes: the mode letter, and the character of `value[1]` at the
same position, or `undefined` past its end. -/
def prefixWrites (syms : List Char) : List Char → Nat → List (String × Option String)
  | [], _ => []
  | mode :: rest, count =>
    (String.singleton mode, (syms.get? count).map String.singleton) ::
      prefixWrites syms rest (count + 1)

/-- The entries the `PREFIX` loop writes into `server.prefixes`, in the order
of the writes: one for every mode letter that some level contains. -/
def tableWrites (levels : List (String × Option String)) (syms : List Char) :
    List Char → Nat → List (String × PrefixEntry)
  | [], _ => []
  | mode :: rest, count =>
    match findLevel mode levels with
    | some (some level) =>
      (((syms.get? count).map String.singleton).getD "undefined",
        ⟨String.singleton mode, level⟩) :: tableWrites levels syms rest (count + 1)
    | _ => tableWrites levels syms rest (count + 1)

/-- The level names with the letters of the three capture groups. -/
def levelsOf (g1 : List Char) (g2 : Option (List Char)) (g3 : List Char) :
    List (String × Option String) :=
  [("op", some (String.mk g1)), ("halfop", some (String.mk (g2.getD []))),
    ("voice", some (String.mk g3))]

/-- The level of a mode letter by the capture group that holds it. -/
def levelName (g1 : List Char) (g2 : Option (List Char)) (mode : Char) : String :=
  if mode ∈ g1 then "op" else if mode ∈ g2.getD [] then "halfop" else "voice"

/-- The `PREFIX` branch of `on_featurelist`. -/
def prefixBranch (sv : Server) (name value : String) : Outcome :=
  let parts := split value ')'
  let modes := removeFirst '(' (parts.getD 0 "").data
  let types := slice1 (splitLevels modes)
  let levels : List (String × Option String) :=
    [("op", (types.get? 0).join),
     ("halfop", some (((types.get? 1).join).getD "")),
     ("voice", (types.get? 2).join)]
  prefixModes name levels (parts.get? 1) { sv with prefixes := some [] } modes 0

/-- The body of the loop `for (let param of event.arguments.slice(0, -1))`
once `name` and `value` are bound.  For a token named `__proto__`,
`Object.keys` never lists the name, so `this.ISUPPORT[name] = {}` runs: it
reaches the setter of `Object.prototype` and makes a new empty object the
prototype of `ISUPPORT`, which leaves the own properties as they are.  When
the value is a list, with a comma and without `)`, the reset to `[]` is
skipped for the same reason and `this.ISUPPORT[name].push(param1)` raises a
`TypeError` at the first item, the empty object having no `push`.  Any other
token named `__proto__` is not modelled. -/
def featureBody (sv : Server) (name value : String) : Outcome :=
  if name = "__proto__" then
    if ',' ∈ value.data ∧ ')' ∉ value.data then .threw sv else .unmodelled
  else
    let sv : Server :=
      if name ∈ keys sv.ISUPPORT then sv
      else { sv with ISUPPORT := setProp sv.ISUPPORT name (.obj []) }
    if value ≠ "" then
      if ',' ∈ value.data then
        commaItems name value sv (split value ',')
      else if name = "PREFIX" then
        prefixBranch sv name value
      else
        .ok { sv with ISUPPORT := setProp sv.ISUPPORT name (.str value) }
    else if ')' ∈ value.data then
      let pair := destructure2 (split value ':')
      assignSub sv name pair.1 pair.2
    else
      .ok { sv with ISUPPORT := setProp sv.ISUPPORT name (.str value) }

/-- One turn of the loop `for (let param of event.arguments.slice(0, -1))`:
`let [name, value] = partition(param, '=').remove(1)` and the body. -/
def featureParam (sv : Server) (param : String) : Outcome :=
  match remove (partition param '=') 1 with
  | [name, value] => featureBody sv name value
  | _ => .unmodelled

/-- The capability name of a token: what precedes its first `=`. -/
def paramName (param : String) : String :=
  String.mk (param.data.takeWhile (fun c => c != '='))

/-- The value of a token: what follows its first `=`. -/
def paramValue (param : String) : String :=
  String.mk ((param.data.dropWhile (fun c => c != '=')).drop 1)

/-- Writing a list of properties, one after the other. -/
def setAll {β : Type} (object : List (String × β)) (writes : List (String × β)) :
    List (String × β) :=
  writes.foldl (fun m kv => setProp m kv.1 kv.2) object

/-- The properties the loop over the items of a value that holds `)` writes
under `ISUPPORT[name]`, in the order of the writes: an item without `)`
writes the property `undefined`, and a write to `__proto__` has no effect. -/
def subWrites (items : List String) : List (String × Option String) :=
  items.filterMap fun param1 =>
    let pair : Option String × Option String :=
      if ')' ∈ param1.data then destructure2 (remove (partition param1 ':') 1)
      else (none, none)
    if pair.1.getD "undefined" = "__proto__" then none
    else some (pair.1.getD "undefined", pair.2)

/-- The value of `server.prefixes` after a token: the table the token built,
or the old value when the token built none. -/
def newPrefixes (built : Option (List (String × PrefixEntry))) (sv : Server) :
    Option (List (String × PrefixEntry)) :=
  match built with
  | some table => some table
  | none => sv.prefixes

/-- The loop of `on_featurelist` over a list of tokens. -/
def featureParams : Server → List String → Outcome
  | sv, [] => .ok sv
  | sv, param :: rest => (featureParam sv param).andThen fun sv' => featureParams sv' rest

/-- `Core.on_featurelist(irc, event)`: every argument but the last is a
token. -/
def on_featurelist (sv : Server) (event : Event) : Outcome :=
  featureParams sv event.arguments.dropLast

/-- The next event is handled on the state the previous handler left, also
when that handler raised. -/
def Outcome.thenEvent (o : Outcome) (event : Event) : Outcome :=
  match o.server? with
  | some sv => on_featurelist sv event
  | none => .unmodelled

/-! ## `src/core.js`: channels, users and the handlers that keep them -/

/-- A value that is `undefined`, `null` or a string. -/
inductive Field where
  | undefined
  | null
  | str (s : String)
deriving DecidableEq, Repr

/-- An entry of a user's `seen` list.  `time` is `none` when the timestamp is
`undefined` or `NaN`. -/
structure SeenEntry where
  time : Option Int
  message : String
deriving DecidableEq, Repr

/-- The fields of a user record that the handlers here read or write; `seen`
is `none` when it is `null` or `undefined`. -/
structure User where
  modes : List String
  seen : Option (List SeenEntry)
deriving DecidableEq, Repr

/-- The fields of a channel record that the handlers here read or write. -/
structure Channel where
  users : List (String × User)
  names : List String
  modes : List String
deriving DecidableEq, Repr

/-- A call `state.channels.add_entry(channel, nick, hostmask, account,
realname)`; `none` is `undefined`.  The method is outside `src/core.js`: the
call is recorded, its effect on the store is not modelled. -/
structure AddEntry where
  channel : Option String
  nick : Option String
  hostmask : String
  account : Field
  realname : Option String
deriving DecidableEq, Repr

/-- A message tag.  `time` is `none` when the tag has no `time`; otherwise it
is the value of `Date.parse(tag.time)`, `none` standing for `NaN`. -/
structure Tag where
  time : Option (Option Int)
deriving DecidableEq, Repr

/-- A parsed event as the handlers of the channel store read it:
`event.source.nick`, `event.source.userhost`, `event.target`,
`event.arguments` and `event.tags`. -/
structure IrcEvent where
  nick : String
  userhost : String
  target : String
  arguments : List String
  tags : List Tag
deriving DecidableEq, Repr

/-- The part of a `Core` instance that the handlers below read or write:
`nickname`, `channels`, `nextWHOChannel` (`none` while it is `undefined`),
the lines handed to `this.send`, the calls of `add_entry` and the calls made
on `irc` (method name and arguments), each oldest first. -/
structure Core where
  nickname : String
  channels : List (String × Channel)
  nextWHOChannel : Option String
  sent : List String
  added : List AddEntry
  irc : List (String × List String)
deriving DecidableEq, Repr

/-- How a handler of the channel store ends: it ran to completion; or it
raised a `TypeError`, leaving the state as mutated so far; or it left the
fragment of JavaScript modelled here. -/
inductive Step where
  | ok (core : Core)
  | threw (core : Core)
  | unmodelled
deriving DecidableEq, Repr

/-- The state a handler leaves, when the outcome is modelled. -/
def Step.core? : Step → Option Core
  | .ok st => some st
  | .threw st => some st
  | .unmodelled => none

/-- Sequencing: the rest of the handler runs only after normal completion. -/
def Step.andThen (o : Step) (f : Core → Step) : Step :=
  match o with
  | .ok st => f st
  | other => other

/-- `this.send(line)`. -/
def Core.send (st : Core) (line : String) : Core :=
  { st with sent := st.sent ++ [line] }

/-- Property names that a lookup on a plain object finds on the prototype
chain instead of answering `undefined`: those of `Object.prototype`, and the
methods `add_entry` and `change_attr` of the channel store. -/
def inheritedKeys : List String :=
  ["constructor", "__proto__", "hasOwnProperty", "isPrototypeOf", "propertyIsEnumerable",
    "toLocaleString", "toString", "valueOf", "__defineGetter__", "__defineSetter__",
    "__lookupGetter__", "__lookupSetter__", "add_entry", "change_attr"]

/-- The result of reading `object[key]`. -/
inductive Lookup (β : Type) where
  | found (value : β)
  | missing
  | inherited

/-- Reading `object[key]` on an object used as a map: an own property is
found; otherwise the answer is `undefined`, unless the prototype chain holds
the key, which is not modelled. -/
def lookupOwn {β : Type} (object : List (String × β)) (key : String) : Lookup β :=
  match getProp object key with
  | some value => .found value
  | none => if key ∈ inheritedKeys then .inherited else .missing

/-- Whether a value that is a string or `undefined` is truthy. -/
def truthy : Option String → Bool
  | some s => s != ""
  | none => false

/-- A string or `undefined` inside a template literal. -/
def template : Option String → String
  | some s => s
  | none => "undefined"

/-- `Core.on_join(irc, event)`. -/
def on_join (st : Core) (event : IrcEvent) : Step :=
  let channel := event.target
  let args := event.arguments
  if event.nick = st.nickname then
    let st1 : Core :=
      if channel ∈ keys st.channels then st
      else { st with channels := setProp st.channels channel ⟨[], [], []⟩ }
    let st2 := (st1.send ("WHO " ++ event.target ++ " nuhs%nhuacr")).send
      ("NAMES " ++ event.target)
    .ok { st2 with irc := st2.irc ++ [("mode", [event.target, "", ""])] }
  else
    let st1 : Core :=
      if args.length > 0 then
        { st with added := st.added ++
            [⟨some channel, some event.nick, event.userhost,
              if args.get? 0 ≠ some "*" then
                (match args.get? 0 with
                  | some a => Field.str a
                  | none => Field.undefined)
              else Field.null,
              none⟩] }
      else st
    let st2 := st1.send ("WHO " ++ event.nick ++ " nuhs%nhuacr")
    .ok { st2 with nextWHOChannel := some event.target }

/-- One nick of a `NAMREPLY` list without its status: `@+` is cut first,
else a single `@` or `+`. -/
def stripStatus (i : String) : String :=
  if ['@', '+'].isPrefixOf i.data then String.mk (i.data.drop 2)
  else if ['@'].isPrefixOf i.data || ['+'].isPrefixOf i.data then String.mk (i.data.drop 1)
  else i

/-- The loop `for (let i of users)` of `on_name`. -/
def nameLoop (channel : String) : Core → List String → Step
  | st, [] => .ok st
  | st, i :: rest =>
    let user := stripStatus i
    match lookupOwn st.channels channel with
    | .inherited => .unmodelled
    | .missing => .threw st
    | .found ch =>
      if user ∈ ch.names then nameLoop channel st rest
      else
        let ch1 : Channel := { ch with names := ch.names ++ [user] }
        nameLoop channel { st with channels := setProp st.channels channel ch1 } rest

/-- `Core.on_name(irc, event)`: `event.arguments[2].split(' ')` raises a
`TypeError` when the argument is missing; a missing `event.arguments[1]` is
the property name `undefined`. -/
def on_name (st : Core) (event : IrcEvent) : Step :=
  match event.arguments.get? 2 with
  | none => .threw st
  | some list => nameLoop (template (event.arguments.get? 1)) st (split list ' ')

/-- `Core.on_whospcrpl(irc, event)`. -/
def on_whospcrpl (st : Core) (event : IrcEvent) : Step :=
  let nick := event.arguments.get? 3
  if nick ≠ some "ChanServ" then
    let args := event.arguments.take 3 ++ event.arguments.drop 4
    let channel := args.get? 0
    let ident := args.get? 1
    let host := args.get? 2
    let account := args.get? 3
    let realname := args.get? 4
    let hostmask := template nick ++ "!" ++ template ident ++ "@" ++ template host
    let account1 : Field :=
      if account ≠ some "0" then
        (match account with
          | some a => Field.str a
          | none => Field.undefined)
      else Field.null
    let channel1 : Option String :=
      if truthy st.nextWHOChannel then
        (if channel ≠ st.nextWHOChannel then st.nextWHOChannel else channel)
      else channel
    .ok { st with added := st.added ++ [⟨channel1, nick, hostmask, account1, realname⟩] }
  else .ok st

/-- The `arguments` object of a call of `init(events, config, state)`, which
is what `arguments` denotes inside the arrow functions that `init` defines.
It is array-like and not an `Array`. -/
structure Arguments where
  length : Nat
deriving DecidableEq, Repr

/-- The property `slice` of an arguments object: `undefined`, `slice` being a
method of `Array.prototype` only. -/
def Arguments.slice (_ : Arguments) : Option (Nat → Nat → List String) :=
  none

/-- The statement `this.channels[channel].users[user].modes.push(mode)`. -/
def pushMode (st : Core) (channel user : Option String) (mode : String) : Step :=
  match lookupOwn st.channels (template channel) with
  | .inherited => .unmodelled
  | .missing => .threw st
  | .found ch =>
    match lookupOwn ch.users (template user) with
    | .inherited => .unmodelled
    | .missing => .threw st
    | .found udb =>
      let udb1 : User := { udb with modes := udb.modes ++ [mode] }
      let ch1 : Channel := { ch with users := setProp ch.users (template user) udb1 }
      .ok { st with channels := setProp st.channels (template channel) ch1 }

/-- `Core._update_user_modes(irc, event, mode)`.  Its first statement is
`let [channel, user] = arguments.slice(0, 2)`: calling the `undefined`
property `slice` raises a `TypeError`. -/
def _update_user_modes (st : Core) (_event : IrcEvent) (mode : String) : Step :=
  match (Arguments.mk 3).slice with
  | none => .threw st
  | some slice =>
    let list := slice 0 2
    let channel := list.get? 0
    match list.get? 1 with
    | none => .threw st
    | some user =>
      if ['$', 'a', ':'].isPrefixOf user.data then
        pushMode st channel (some (String.mk (user.data.drop 3))) mode
      else
        pushMode st channel (some user) mode

/-- `Core.on_exceptlist(irc, event)`. -/
def on_exceptlist (st : Core) (event : IrcEvent) : Step :=
  _update_user_modes st event "e"

/-- `Core.on_banlist(irc, event)`. -/
def on_banlist (st : Core) (event : IrcEvent) : Step :=
  _update_user_modes st event "b"

/-- `Core.on_quietlist(irc, event)`. -/
def on_quietlist (st : Core) (event : IrcEvent) : Step :=
  _update_user_modes st event "q"

/-- `Core._get_time(tags)`: with tags, the parsed `time` of the last tag that
has one, and `undefined` when none has; without tags, `Date.now()`. -/
def _get_time (now : Int) (tags : List Tag) : Option Int :=
  if tags.length ≠ 0 then
    tags.foldl (fun timestamp i =>
      match i.time with
      | some parsed => parsed
      | none => timestamp) none
  else some now

/-- The comparator `(a, b) => a.time > b.time` as `sort` reads it: the boolean
turned into a number, 1 for `true` and 0 for `false`.  A comparison with
`undefined` or `NaN` is `false`. -/
def seenOrder (a b : SeenEntry) : Int :=
  match a.time, b.time with
  | some x, some y => if x > y then 1 else 0
  | _, _ => 0

/-- `CountAndMakeRun` of V8's `Array.prototype.sort` (the TimSort of V8 7.0
and later, Node.js 11 and later), after the first two elements: how many
further elements continue the run.  Each element is compared with the one
before it; an ascending run ends at the first negative order, a descending
run at the first order that is not negative. -/
def runTail {α : Type} (order : α → α → Int) (descending : Bool) : α → List α → Nat
  | _, [] => 0
  | previous, current :: rest =>
    if descending then
      (if order current previous ≥ 0 then 0
        else 1 + runTail order descending current rest)
    else
      (if order current previous < 0 then 0
        else 1 + runTail order descending current rest)

/-- The binary search of `BinaryInsertionSort`: the position of `pivot` in
the sorted range `[left, right)`; the range moves left when the order of the
pivot and the middle element is negative, else right. -/
def insertionPoint {α : Type} (order : α → α → Int) (pivot : α) (sorted : List α) :
    Nat → Nat → Nat → Nat
  | 0, left, _ => left
  | fuel + 1, left, right =>
    if left < right then
      let mid := left + (right - left) / 2
      match sorted.get? mid with
      | some element =>
        if order pivot element < 0 then insertionPoint order pivot sorted fuel left mid
        else insertionPoint order pivot sorted fuel (mid + 1) right
      | none => left
    else left

/-- `array.sort(comparefn)` as V8 7.0 and later runs it on an array of fewer
than 64 elements: the run that starts the array is counted, and reversed if
it is descending, then the remaining elements are inserted one by one.
Longer arrays, which are merged from several runs, are not modelled. -/
def sort {α : Type} (order : α → α → Int) (array : List α) : Option (List α) :=
  if 64 ≤ array.length then none
  else
    match array with
    | first :: second :: rest =>
      let descending : Bool := decide (order second first < 0)
      let run := 2 + runTail order descending second rest
      let start : List α :=
        if descending then (array.take run).reverse else array.take run
      some ((array.drop run).foldl
        (fun sorted pivot =>
          let position := insertionPoint order pivot sorted (sorted.length + 1) 0 sorted.length
          sorted.take position ++ pivot :: sorted.drop position)
        start)
    | short => some short

/-- `array.slice(-5)`: the last five elements. -/
def lastFive {α : Type} (array : List α) : List α :=
  array.drop (array.length - 5)

/-- `Core._update_seen_db(event, irc, nick, str_args)`.  `strip_formatting`
comes from `utils/general`, which is outside `src/`, and `now` is the value
of `Date.now()`. -/
def _update_seen_db (strip_formatting : String → String) (now : Int) (st : Core)
    (event : IrcEvent) (nick str_args : String) : Step :=
  let timestamp := _get_time now event.tags
  match lookupOwn st.channels event.target with
  | .inherited => .unmodelled
  | .missing => .threw st
  | .found ch =>
    match lookupOwn ch.users nick with
    | .inherited => .unmodelled
    | .found udb =>
      let pushed := udb.seen.getD [] ++ [⟨timestamp, strip_formatting str_args⟩]
      match sort seenOrder pushed with
      | none => .unmodelled
      | some sorted =>
        let udb1 : User := { udb with seen := some (lastFive sorted) }
        let ch1 : Channel := { ch with users := setProp ch.users nick udb1 }
        .ok { st with channels := setProp st.channels event.target ch1 }
    | .missing => .ok (st.send ("WHO " ++ event.target ++ " nuhs%nhuacr"))

/-- A run of channel messages of one sender handed to `_update_seen_db`, one
after the other, up to the first call that does not complete. -/
def seenAll (strip_formatting : String → String) (now : Int) (nick : String) :
    Core → List (IrcEvent × String) → Step
  | st, [] => .ok st
  | st, (event, str_args) :: rest =>
    (_update_seen_db strip_formatting now st event nick str_args).andThen
      fun st' => seenAll strip_formatting now nick st' rest

/-- The events handled one after the other by one handler, up to the first
that does not complete. -/
def handleAll (handler : Core → IrcEvent → Step) : Core → List IrcEvent → Step
  | st, [] => .ok st
  | st, event :: rest => (handler st event).andThen fun st' => handleAll handler st' rest

/-! ## Base64 -/

theorem base64Value_digit : ∀ n < 64, base64Value (base64Digit n) = n ∧ base64Digit n ≠ '=' := by
  decide

theorem base64Decode_chars (bytes : List Nat) (h : ∀ b ∈ bytes, b < 256) :
    base64Decode (base64Chars bytes) = bytes := by
  induction bytes using base64Chars.induct with
  | case1 => rfl
  | case2 a =>
    have ha : a < 256 := h a (by simp)
    have h1 := base64Value_digit (a / 4) (by omega)
    have h2 := base64Value_digit (a % 4 * 16) (by omega)
    simp only [base64Chars, base64Decode, if_true, h1.1, h2.1]
    congr 1
    omega
  | case3 a b =>
    have ha : a < 256 := h a (by simp)
    have hb : b < 256 := h b (by simp)
    have h1 := base64Value_digit (a / 4) (by omega)
    have h2 := base64Value_digit (a % 4 * 16 + b / 16) (by omega)
    have h3 := base64Value_digit (b % 16 * 4) (by omega)
    simp only [base64Chars, base64Decode, if_true, h1.1, h2.1, h3.1, h3.2, if_false]
    congr 1
    · omega
    · congr 1
      omega
  | case4 a b c rest ih =>
    have ha : a < 256 := h a (by simp)
    have hb : b < 256 := h b (by simp)
    have hc : c < 256 := h c (by simp)
    have h1 := base64Value_digit (a / 4) (by omega)
    have h2 := base64Value_digit (a % 4 * 16 + b / 16) (by omega)
    have h3 := base64Value_digit (b % 16 * 4 + c / 64) (by omega)
    have h4 := base64Value_digit (c % 64) (by omega)
    simp only [base64Chars, base64Decode, h1.1, h2.1, h3.1, h3.2, h4.1, h4.2, if_false]
    rw [ih (fun x hx => h x (by simp [hx]))]
    congr 1
    · omega
    · congr 1
      · omega
      · congr 1
        omega

theorem utf8Char_lt (c : Char) : ∀ b ∈ utf8Char c, b < 256 := by
  have hv : c.toNat < 0x110000 := by
    have := c.valid
    simp only [UInt32.isValidChar, Nat.isValidChar] at this
    show c.val.toNat < 0x110000
    omega
  intro b hb
  unfold utf8Char at hb
  simp only at hb
  split at hb
  · simp only [List.mem_singleton] at hb; omega
  · split at hb
    · simp only [List.mem_cons, List.mem_singleton, List.not_mem_nil, or_false] at hb
      omega
    · split at hb
      · simp only [List.mem_cons, List.mem_singleton, List.not_mem_nil, or_false] at hb
        omega
      · simp only [List.mem_cons, List.mem_singleton, List.not_mem_nil, or_false] at hb
        omega

theorem toBase64_bufferFrom_decode (s : String) :
    base64Decode (toBase64 (bufferFrom s)).data = bufferFrom s := by
  apply base64Decode_chars
  intro b hb
  simp only [bufferFrom, List.mem_flatMap] at hb
  obtain ⟨c, -, hc⟩ := hb
  exact utf8Char_lt c b hc

/-! ## Property maps -/

theorem getProp_setProp_same {β : Type} (m : List (String × β)) (k : String) (v : β) :
    getProp (setProp m k v) k = some v := by
  induction m with
  | nil => simp [setProp, getProp]
  | cons kv rest ih =>
    obtain ⟨k', w⟩ := kv
    by_cases h : k' = k <;> simp [setProp, getProp, h, ih]

theorem getProp_setProp_of_ne {β : Type} (m : List (String × β)) {k k' : String} (v : β)
    (h : k' ≠ k) : getProp (setProp m k v) k' = getProp m k' := by
  induction m with
  | nil => simp [setProp, getProp, Ne.symm h]
  | cons kv rest ih =>
    obtain ⟨k1, w⟩ := kv
    by_cases h1 : k1 = k
    · subst h1
      simp [setProp, getProp, Ne.symm h]
    · by_cases h2 : k1 = k'
      · subst h2
        simp [setProp, getProp, h1]
      · simp [setProp, getProp, h1, h2, ih]

theorem setProp_setProp_same {β : Type} (m : List (String × β)) (k : String) (v w : β) :
    setProp (setProp m k v) k w = setProp m k w := by
  induction m with
  | nil => simp [setProp]
  | cons kv rest ih =>
    obtain ⟨k', u⟩ := kv
    by_cases h : k' = k <;> simp [setProp, h, ih]

theorem setProp_of_getProp {β : Type} (m : List (String × β)) (k : String) (v : β)
    (h : getProp m k = some v) : setProp m k v = m := by
  induction m with
  | nil => simp [getProp] at h
  | cons kv rest ih =>
    obtain ⟨k', u⟩ := kv
    by_cases h1 : k' = k
    · subst h1
      simp [getProp] at h
      simp [setProp, h]
    · simp [getProp, h1] at h
      simp [setProp, h1, ih h]

theorem mem_keys_iff {β : Type} (m : List (String × β)) (k : String) :
    k ∈ keys m ↔ ∃ v, getProp m k = some v := by
  induction m with
  | nil => simp [keys, getProp]
  | cons kv rest ih =>
    obtain ⟨k', u⟩ := kv
    by_cases h1 : k' = k
    · subst h1
      simp [keys, getProp]
    · have ih2 : k ∈ List.map Prod.fst rest ↔ ∃ v, getProp rest k = some v := ih
      simp [keys, getProp, h1, Ne.symm h1, ih2]

theorem not_mem_keys_iff {β : Type} (m : List (String × β)) (k : String) :
    k ∉ keys m ↔ getProp m k = none := by
  rw [mem_keys_iff]
  cases getProp m k <;> simp

/-! ## Tokens -/

theorem partition_of_not_mem (str : String) (sep : Char) (h : sep ∉ str.data) :
    partition str sep = [str, "", ""] := by
  simp [partition, h]

theorem partition_of_append (a b : List Char) (sep : Char) (h : sep ∉ a) :
    partition (String.mk (a ++ sep :: b)) sep
      = [String.mk a, String.singleton sep, String.mk b] := by
  have h1 : ∀ c ∈ a, (c != sep) = true := by
    intro c hc
    simp only [bne_iff_ne, ne_eq]
    rintro rfl
    exact h hc
  simp [partition, List.takeWhile_append_of_pos h1, List.dropWhile_append_of_pos h1,
    List.takeWhile_cons, List.dropWhile_cons]

theorem remove_partition (param : String) :
    remove (partition param '=') 1 = [paramName param, paramValue param] := by
  unfold partition paramName paramValue
  by_cases h : '=' ∈ param.data
  · simp [h, remove]
  · have h1 : ∀ c ∈ param.data, (c != '=') = true := by
      intro c hc
      simp only [bne_iff_ne, ne_eq]
      rintro rfl
      exact h hc
    have h2 : param.data.takeWhile (fun c => c != '=') = param.data :=
      List.takeWhile_eq_self_iff.mpr h1
    have h3 : param.data.dropWhile (fun c => c != '=') = [] :=
      List.dropWhile_eq_nil_iff.mpr h1
    simp [h, remove, h2, h3]

theorem featureParam_eq (sv : Server) (param : String) :
    featureParam sv param = featureBody sv (paramName param) (paramValue param) := by
  simp [featureParam, remove_partition]

theorem paramName_of_not_mem (param : String) (h : '=' ∉ param.data) :
    paramName param = param ∧ paramValue param = "" := by
  have h1 : ∀ c ∈ param.data, (c != '=') = true := by
    intro c hc
    simp only [bne_iff_ne, ne_eq]
    rintro rfl
    exact h hc
  have h2 : param.data.takeWhile (fun c => c != '=') = param.data :=
    List.takeWhile_eq_self_iff.mpr h1
  have h3 : param.data.dropWhile (fun c => c != '=') = [] :=
    List.dropWhile_eq_nil_iff.mpr h1
  simp [paramName, paramValue, h2, h3]

theorem paramName_of_append (a b : List Char) (h : '=' ∉ a) :
    paramName (String.mk (a ++ '=' :: b)) = String.mk a ∧
    paramValue (String.mk (a ++ '=' :: b)) = String.mk b := by
  have h1 : ∀ c ∈ a, (c != '=') = true := by
    intro c hc
    simp only [bne_iff_ne, ne_eq]
    rintro rfl
    exact h hc
  simp [paramName, paramValue, List.takeWhile_append_of_pos h1,
    List.dropWhile_append_of_pos h1, List.takeWhile_cons, List.dropWhile_cons]

theorem featureBody_empty (sv : Server) (name : String) (h : name ≠ "__proto__") :
    featureBody sv name ""
      = .ok { sv with ISUPPORT := setProp sv.ISUPPORT name (.str "") } := by
  unfold featureBody
  by_cases hk : name ∈ keys sv.ISUPPORT
  · simp [h, hk]
  · simp [h, hk, setProp_setProp_same]

theorem on_featurelist_single (sv : Server) (param trailing : String) :
    on_featurelist sv ⟨[param, trailing]⟩
      = featureBody sv (paramName param) (paramValue param) := by
  simp only [on_featurelist, List.dropLast, featureParams, featureParam_eq]
  cases featureBody sv (paramName param) (paramValue param) <;> rfl

/-! ## More on property maps -/

theorem singleton_ne_proto (c : Char) : String.singleton c ≠ "__proto__" := by
  intro h
  have h2 := congrArg String.length h
  simp at h2
  revert h2
  decide

theorem singleton_injective : Function.Injective String.singleton := by
  intro a b h
  have h2 := congrArg String.data h
  simpa using h2

theorem setAll_cons {β : Type} (m : List (String × β)) (k : String) (v : β)
    (ws : List (String × β)) : setAll m ((k, v) :: ws) = setAll (setProp m k v) ws := rfl

theorem setAll_nil {β : Type} (m : List (String × β)) : setAll m [] = m := rfl

theorem getProp_setAll_of_not_mem {β : Type} (ws m : List (String × β)) (k : String)
    (h : k ∉ keys ws) : getProp (setAll m ws) k = getProp m k := by
  induction ws generalizing m with
  | nil => rfl
  | cons kv ws ih =>
    obtain ⟨k1, v1⟩ := kv
    simp only [keys, List.map_cons, List.mem_cons, not_or] at h
    rw [setAll_cons, ih _ h.2, getProp_setProp_of_ne _ _ h.1]

theorem getProp_setAll_of_nodup {β : Type} (ws m : List (String × β)) (k : String) (v : β)
    (hn : (keys ws).Nodup) (h : (k, v) ∈ ws) : getProp (setAll m ws) k = some v := by
  induction ws generalizing m with
  | nil => simp at h
  | cons kv ws ih =>
    obtain ⟨k1, v1⟩ := kv
    simp only [keys, List.map_cons, List.nodup_cons] at hn
    rw [setAll_cons]
    rcases List.mem_cons.mp h with h1 | h1
    · cases h1
      rw [getProp_setAll_of_not_mem _ _ _ hn.1, getProp_setProp_same]
    · exact ih _ hn.2 h1

theorem setProp_of_not_mem {β : Type} (m : List (String × β)) (k : String) (v : β)
    (h : k ∉ keys m) : setProp m k v = m ++ [(k, v)] := by
  induction m with
  | nil => rfl
  | cons kv rest ih =>
    obtain ⟨k1, v1⟩ := kv
    simp only [keys, List.map_cons, List.mem_cons, not_or] at h
    have h1 : ¬ k1 = k := fun e => h.1 e.symm
    simp [setProp, h1, ih h.2]

theorem setAll_of_nodup {β : Type} (ws m : List (String × β))
    (hn : (keys (m ++ ws)).Nodup) : setAll m ws = m ++ ws := by
  induction ws generalizing m with
  | nil => simp [setAll_nil]
  | cons kv ws ih =>
    obtain ⟨k1, v1⟩ := kv
    have h1 : k1 ∉ keys m := by
      simp only [keys, List.map_append, List.map_cons] at hn
      have := (List.nodup_append.mp hn).2.2
      intro hk
      exact this hk (List.mem_cons_self _ _)
    rw [setAll_cons, setProp_of_not_mem _ _ _ h1, ih]
    · simp
    · simpa using hn

/-! ## The `PREFIX` branch -/

theorem assignSub_obj (sv : Server) (name : String) (name1 value1 : Option String)
    (props : List (String × Option String))
    (h : getProp sv.ISUPPORT name = some (.obj props)) (hk : name1.getD "undefined" ≠ "__proto__") :
    assignSub sv name name1 value1 =
      .ok ⟨setProp sv.ISUPPORT name (.obj (setProp props (name1.getD "undefined") value1)),
        sv.prefixes⟩ := by
  simp [assignSub, h, hk]

theorem prefixModes_ok (name : String) (levels : List (String × Option String))
    (syms rest : List Char) (hsyms : ∀ c ∈ syms, isBMP c = true)
    (hlv : ∀ m ∈ rest, findLevel m levels ≠ none)
    (isupport : List (String × Value)) (count : Nat)
    (props : List (String × Option String)) (table : List (String × PrefixEntry))
    (hobj : getProp isupport name = some (.obj props)) :
    prefixModes name levels (some (String.mk syms)) ⟨isupport, some table⟩ rest count =
      .ok ⟨setProp isupport name (.obj (setAll props (prefixWrites syms rest count))),
        some (setAll table (tableWrites levels syms rest count))⟩ := by
  induction rest generalizing isupport count props table with
  | nil =>
    simp [prefixModes, prefixWrites, tableWrites, setAll_nil, setProp_of_getProp _ _ _ hobj]
  | cons mode rest ih =>
    have hb : ((syms.take (count + 1)).all isBMP) = true := by
      rw [List.all_eq_true]
      intro c hc
      exact hsyms c (List.mem_of_mem_take hc)
    have hl := hlv mode (List.mem_cons_self _ _)
    have hrest : ∀ m ∈ rest, findLevel m levels ≠ none :=
      fun m hm => hlv m (List.mem_cons_of_mem _ hm)
    unfold prefixModes
    simp only [hb, if_true]
    cases hf : findLevel mode levels with
    | none => exact absurd hf hl
    | some found =>
      cases found with
      | none =>
        simp only [prefixWrites, tableWrites, hf]
        rw [assignSub_obj _ _ _ _ props hobj (by simpa using singleton_ne_proto mode)]
        simp only [Outcome.andThen, Option.getD_some]
        rw [ih hrest _ _ _ _ (getProp_setProp_same _ _ _)]
        simp [setProp_setProp_same, setAll_cons]
      | some level =>
        simp only [prefixWrites, tableWrites, hf]
        rw [assignSub_obj _ _ _ _ props hobj (by simpa using singleton_ne_proto mode)]
        simp only [Outcome.andThen, Option.getD_some]
        rw [ih hrest _ _ _ _ (getProp_setProp_same _ _ _)]
        simp [setProp_setProp_same, setAll_cons]

theorem splitChars_of_not_mem (sep : Char) (b : List Char) (h : sep ∉ b) :
    splitChars sep b = [b] := by
  induction b with
  | nil => rfl
  | cons c cs ih =>
    simp only [List.mem_cons, not_or] at h
    have h1 : ¬ c = sep := fun e => h.1 e.symm
    simp [splitChars, h1, ih h.2]

theorem splitChars_append (sep : Char) (a b : List Char) (h : sep ∉ a) :
    splitChars sep (a ++ sep :: b) = a :: splitChars sep b := by
  induction a with
  | nil => simp [splitChars]
  | cons c cs ih =>
    simp only [List.mem_cons, not_or] at h
    have h1 : ¬ c = sep := fun e => h.1 e.symm
    simp [splitChars, h1, ih h.2]

theorem splitAfterLast_none (c : Char) (s : List Char) :
    splitAfterLast c s = none ↔ c ∉ s := by
  induction s with
  | nil => simp [splitAfterLast]
  | cons x xs ih =>
    unfold splitAfterLast
    cases hx : splitAfterLast c xs with
    | none =>
      have h1 := ih.mp hx
      by_cases h2 : x = c
      · simp [h2]
      · simp [h2, h1, Ne.symm h2]
    | some ab =>
      have h1 : c ∈ xs := by
        by_contra hc
        rw [ih.mpr hc] at hx
        cases hx
      simp [h1]

theorem splitAfterLast_some (c : Char) (s a b : List Char)
    (h : splitAfterLast c s = some (a, b)) : a ++ b = s ∧ c ∈ a ∧ c ∉ b := by
  induction s generalizing a b with
  | nil => simp [splitAfterLast] at h
  | cons x xs ih =>
    unfold splitAfterLast at h
    cases hx : splitAfterLast c xs with
    | none =>
      rw [hx] at h
      have hn := (splitAfterLast_none c xs).mp hx
      by_cases h2 : x = c
      · simp only [h2, if_true, Option.some.injEq, Prod.mk.injEq] at h
        obtain ⟨h3, h4⟩ := h
        subst h3 h4
        simp [h2, hn]
      · simp [h2] at h
    | some ab =>
      obtain ⟨a1, b1⟩ := ab
      rw [hx] at h
      simp only [Option.some.injEq, Prod.mk.injEq] at h
      obtain ⟨h3, h4⟩ := h
      subst h3 h4
      obtain ⟨e1, e2, e3⟩ := ih a1 b1 hx
      simp [e1, e2, e3]

theorem matchLevels_some (s : List Char) (ho : 'o' ∈ s)
    (hl : ∀ c ∈ s, isLineTerminator c = false) :
    ∃ g1 g2 g3, matchLevels s = some (g1, g2, g3) ∧ g1 ++ g2.getD [] ++ g3 = s := by
  have h0 : s.any isLineTerminator = false := by
    rw [List.any_eq_false]
    intro c hc
    simp [hl c hc]
  unfold matchLevels
  simp only [h0, Bool.false_eq_true, if_false]
  cases h1 : splitAfterLast 'o' s with
  | none => exact absurd ho ((splitAfterLast_none _ _).mp h1)
  | some ab =>
    obtain ⟨g1, r⟩ := ab
    obtain ⟨e1, -, -⟩ := splitAfterLast_some _ _ _ _ h1
    cases h2 : splitAfterLast 'h' r with
    | none =>
      refine ⟨g1, none, r, ?_, ?_⟩
      · simp [h2]
      · simpa using e1
    | some cd =>
      obtain ⟨g2, g3⟩ := cd
      obtain ⟨e2, -, -⟩ := splitAfterLast_some _ _ _ _ h2
      refine ⟨g1, some g2, g3, ?_, ?_⟩
      · simp [h2]
      · simp [← e1, ← e2]

theorem findLevel_levelsOf (g1 : List Char) (g2 : Option (List Char)) (g3 : List Char)
    (m : Char) (h : m ∈ g1 ++ g2.getD [] ++ g3) :
    findLevel m (levelsOf g1 g2 g3) = some (some (levelName g1 g2 m)) := by
  unfold levelsOf levelName findLevel findLevel findLevel findLevel
  by_cases h1 : m ∈ g1
  · simp [h1]
  · by_cases h2 : m ∈ g2.getD []
    · simp [h1, h2]
    · have h3 : m ∈ g3 := by
        simp only [List.mem_append] at h
        tauto
      simp [h1, h2, h3]

theorem keys_prefixWrites (syms rest : List Char) (count : Nat) :
    keys (prefixWrites syms rest count) = rest.map String.singleton := by
  induction rest generalizing count with
  | nil => rfl
  | cons m rest ih =>
    have := ih (count + 1)
    simp only [keys] at this
    simp [prefixWrites, keys, this]

theorem mem_prefixWrites (syms rest : List Char) (count j : Nat) (m : Char)
    (h : rest.get? j = some m) :
    (String.singleton m, (syms.get? (count + j)).map String.singleton)
      ∈ prefixWrites syms rest count := by
  induction rest generalizing count j with
  | nil => simp at h
  | cons x rest ih =>
    cases j with
    | zero =>
      simp at h
      subst h
      simp [prefixWrites]
    | succ j =>
      simp at h
      have := ih (count + 1) j (by simpa using h)
      rw [show count + 1 + j = count + (j + 1) by omega] at this
      unfold prefixWrites
      exact List.mem_cons_of_mem _ this

theorem keys_tableWrites (levels : List (String × Option String)) (syms rest : List Char)
    (count : Nat) (hl : ∀ m ∈ rest, ∃ lvl, findLevel m levels = some (some lvl))
    (hc : count + rest.length ≤ syms.length) :
    keys (tableWrites levels syms rest count)
      = ((syms.drop count).take rest.length).map String.singleton := by
  induction rest generalizing count with
  | nil => simp [tableWrites, keys]
  | cons m rest ih =>
    obtain ⟨lvl, hlvl⟩ := hl m (List.mem_cons_self _ _)
    have h1 := ih (count + 1) (fun x hx => hl x (List.mem_cons_of_mem _ hx))
      (by simp at hc; omega)
    simp only [keys] at h1
    have h2 : count < syms.length := by simp at hc; omega
    have h3 : syms.drop count = syms[count] :: syms.drop (count + 1) :=
      List.drop_eq_getElem_cons h2
    have h4 : syms.get? count = some syms[count] := by
      simp [List.getElem?_eq_getElem h2]
    unfold tableWrites
    simp only [hlvl, keys, List.map_cons, h1, h4, Option.map_some', Option.getD_some]
    rw [h3, List.length_cons, List.take_succ_cons, List.map_cons]

theorem mem_tableWrites (levels : List (String × Option String)) (syms rest : List Char)
    (count j : Nat) (m : Char) (lvl : String)
    (h : rest.get? j = some m) (hl : findLevel m levels = some (some lvl)) :
    (((syms.get? (count + j)).map String.singleton).getD "undefined",
      (⟨String.singleton m, lvl⟩ : PrefixEntry)) ∈ tableWrites levels syms rest count := by
  induction rest generalizing count j with
  | nil => simp at h
  | cons x rest ih =>
    cases j with
    | zero =>
      simp at h
      subst h
      simp [tableWrites, hl]
    | succ j =>
      simp at h
      have := ih (count + 1) j (by simpa using h)
      rw [show count + 1 + j = count + (j + 1) by omega] at this
      unfold tableWrites
      split
      · exact List.mem_cons_of_mem _ this
      · exact this

theorem prefixBranch_eq (sv : Server) (name : String) (modes symbols g1 g3 : List Char)
    (g2 : Option (List Char))
    (hg : matchLevels modes = some (g1, g2, g3))
    (hm : ')' ∉ modes) (hs : ')' ∉ symbols) :
    prefixBranch sv name (String.mk ('(' :: modes ++ ')' :: symbols)) =
      prefixModes name (levelsOf g1 g2 g3) (some (String.mk symbols))
        ⟨sv.ISUPPORT, some []⟩ modes 0 := by
  have h1 : ')' ∉ '(' :: modes := by
    simp only [List.mem_cons, not_or]
    exact ⟨by decide, hm⟩
  have h2 : split (String.mk ('(' :: modes ++ ')' :: symbols)) ')'
      = [String.mk ('(' :: modes), String.mk symbols] := by
    unfold split
    have := splitChars_append ')' ('(' :: modes) symbols h1
    simp only [List.cons_append] at this
    simp [this, splitChars_of_not_mem _ _ hs]
  unfold prefixBranch
  simp only [h2]
  cases g2 <;> simp [removeFirst, splitLevels, hg, slice1, levelsOf]

theorem featureBody_prefixBranch (sv : Server) (value : String) (h1 : value ≠ "")
    (h2 : ',' ∉ value.data) :
    featureBody sv "PREFIX" value =
      prefixBranch
        (if "PREFIX" ∈ keys sv.ISUPPORT then sv
          else ⟨setProp sv.ISUPPORT "PREFIX" (.obj []), sv.prefixes⟩) "PREFIX" value := by
  unfold featureBody
  have h0 : ("PREFIX" : String) ≠ "__proto__" := by decide
  simp [h0, h1, h2]

/-! ## What a token leaves untouched -/

theorem andThen_rel (R : Server → Server → Prop)
    (htrans : ∀ a b c, R a b → R b c → R a c)
    (sv : Server) (o : Outcome) (f : Server → Outcome)
    (h1 : ∀ sv', o.server? = some sv' → R sv sv')
    (h2 : ∀ sv1, o = .ok sv1 → ∀ sv', (f sv1).server? = some sv' → R sv1 sv') :
    ∀ sv', (o.andThen f).server? = some sv' → R sv sv' := by
  intro sv' h
  cases o with
  | ok sv1 => exact htrans _ _ _ (h1 sv1 rfl) (h2 sv1 rfl sv' h)
  | threw sv1 => exact h1 sv' h
  | unmodelled => simp [Outcome.andThen, Outcome.server?] at h

theorem assignSub_frame (sv : Server) (name : String) (name1 value1 : Option String) :
    ∀ sv', (assignSub sv name name1 value1).server? = some sv' →
      (∀ n, n ≠ name → getProp sv'.ISUPPORT n = getProp sv.ISUPPORT n)
        ∧ sv'.prefixes = sv.prefixes := by
  intro sv' h
  unfold assignSub at h
  cases hg : getProp sv.ISUPPORT name with
  | none =>
    simp only [hg, Outcome.server?, Option.some.injEq] at h
    subst h
    exact ⟨fun _ _ => rfl, rfl⟩
  | some v =>
    simp only [hg] at h
    by_cases hk : name1.getD "undefined" = "__proto__"
    · simp only [hk, if_true, Outcome.server?, Option.some.injEq] at h
      subst h
      exact ⟨fun _ _ => rfl, rfl⟩
    · simp only [hk, if_false] at h
      cases v with
      | str s =>
        simp only [Outcome.server?, Option.some.injEq] at h
        subst h
        exact ⟨fun _ _ => rfl, rfl⟩
      | arr items => simp [Outcome.server?] at h
      | obj props =>
        simp only [Outcome.server?, Option.some.injEq] at h
        subst h
        exact ⟨fun n hn => getProp_setProp_of_ne _ _ hn, rfl⟩

theorem pushItem_frame (sv : Server) (name param1 : String) :
    ∀ sv', (pushItem sv name param1).server? = some sv' →
      (∀ n, n ≠ name → getProp sv'.ISUPPORT n = getProp sv.ISUPPORT n)
        ∧ sv'.prefixes = sv.prefixes := by
  intro sv' h
  unfold pushItem at h
  by_cases hc : name ∈ keys sv.ISUPPORT ∧ isObject (getProp sv.ISUPPORT name) = true
  · simp only [hc, and_self, if_true] at h
    split at h
    · simp only [Outcome.server?, Option.some.injEq] at h
      subst h
      refine ⟨fun n hn => ?_, rfl⟩
      simp only
      rw [getProp_setProp_of_ne _ _ hn, getProp_setProp_of_ne _ _ hn]
    · simp only [Outcome.server?, Option.some.injEq] at h
      subst h
      exact ⟨fun n hn => getProp_setProp_of_ne _ _ hn, rfl⟩
  · simp only [hc, if_false] at h
    split at h
    · simp only [Outcome.server?, Option.some.injEq] at h
      subst h
      exact ⟨fun n hn => getProp_setProp_of_ne _ _ hn, rfl⟩
    · simp only [Outcome.server?, Option.some.injEq] at h
      subst h
      exact ⟨fun _ _ => rfl, rfl⟩

theorem commaItems_frame (name value : String) (items : List String) (sv : Server) :
    ∀ sv', (commaItems name value sv items).server? = some sv' →
      (∀ n, n ≠ name → getProp sv'.ISUPPORT n = getProp sv.ISUPPORT n)
        ∧ sv'.prefixes = sv.prefixes := by
  induction items generalizing sv with
  | nil =>
    intro sv' h
    simp only [commaItems, Outcome.server?, Option.some.injEq] at h
    subst h
    exact ⟨fun _ _ => rfl, rfl⟩
  | cons param1 rest ih =>
    unfold commaItems
    split
    · exact andThen_rel
        (fun a b => (∀ n, n ≠ name → getProp b.ISUPPORT n = getProp a.ISUPPORT n)
          ∧ b.prefixes = a.prefixes)
        (fun a b c hab hbc => ⟨fun n hn => (hbc.1 n hn).trans (hab.1 n hn), hbc.2.trans hab.2⟩)
        sv _ _ (assignSub_frame sv name _ _) (fun sv1 _ => ih sv1)
    · exact andThen_rel
        (fun a b => (∀ n, n ≠ name → getProp b.ISUPPORT n = getProp a.ISUPPORT n)
          ∧ b.prefixes = a.prefixes)
        (fun a b c hab hbc => ⟨fun n hn => (hbc.1 n hn).trans (hab.1 n hn), hbc.2.trans hab.2⟩)
        sv _ _ (pushItem_frame sv name _) (fun sv1 _ => ih sv1)

theorem prefixModes_frame (name : String) (levels : List (String × Option String))
    (symbols : Option String) (rest : List Char) (sv : Server) (count : Nat) :
    ∀ sv', (prefixModes name levels symbols sv rest count).server? = some sv' →
      ∀ n, n ≠ name → getProp sv'.ISUPPORT n = getProp sv.ISUPPORT n := by
  induction rest generalizing sv count with
  | nil =>
    intro sv' h
    simp only [prefixModes, Outcome.server?, Option.some.injEq] at h
    subst h
    exact fun _ _ => rfl
  | cons mode rest ih =>
    unfold prefixModes
    cases symbols with
    | none =>
      intro sv' h
      simp only [Outcome.server?, Option.some.injEq] at h
      subst h
      exact fun _ _ => rfl
    | some syms =>
      simp only
      split
      · cases hf : findLevel mode levels with
        | none =>
          intro sv' h
          simp only [Outcome.server?, Option.some.injEq] at h
          subst h
          exact fun _ _ => rfl
        | some found =>
          simp only
          refine andThen_rel
            (fun a b => ∀ n, n ≠ name → getProp b.ISUPPORT n = getProp a.ISUPPORT n)
            (fun a b c hab hbc n hn => (hbc n hn).trans (hab n hn))
            sv _ _ ?_ (fun sv1 _ => ih sv1 (count + 1))
          intro sv' h n hn
          rw [(assignSub_frame _ name _ _ sv' h).1 n hn]
          cases found <;> rfl
      · intro sv' h
        simp [Outcome.server?] at h

theorem featureBody_frame (sv : Server) (name value : String) :
    ∀ sv', (featureBody sv name value).server? = some sv' →
      (∀ n, n ≠ name → getProp sv'.ISUPPORT n = getProp sv.ISUPPORT n)
        ∧ (name ≠ "PREFIX" → sv'.prefixes = sv.prefixes) := by
  intro sv' h
  unfold featureBody at h
  by_cases hp : name = "__proto__"
  · rw [if_pos hp] at h
    split at h
    · simp only [Outcome.server?, Option.some.injEq] at h
      subst h
      exact ⟨fun _ _ => rfl, fun _ => rfl⟩
    · simp [Outcome.server?] at h
  simp only [hp, if_false] at h
  -- the state once the entry has been made sure of
  have h0 : ∀ n, n ≠ name →
      getProp (if name ∈ keys sv.ISUPPORT then sv
        else { sv with ISUPPORT := setProp sv.ISUPPORT name (.obj []) }).ISUPPORT n
        = getProp sv.ISUPPORT n := by
    intro n hn
    split
    · rfl
    · exact getProp_setProp_of_ne _ _ hn
  have h0p : (if name ∈ keys sv.ISUPPORT then sv
        else { sv with ISUPPORT := setProp sv.ISUPPORT name (.obj []) }).prefixes
        = sv.prefixes := by
    split <;> rfl
  generalize (if name ∈ keys sv.ISUPPORT then sv
        else { sv with ISUPPORT := setProp sv.ISUPPORT name (.obj []) }) = sv0 at h h0 h0p
  by_cases hv : value = ""
  · subst hv
    simp only [ne_eq, not_true_eq_false, if_false] at h
    have hd : ¬ (')' ∈ "".data) := by decide
    simp only [hd, if_false, Outcome.server?, Option.some.injEq] at h
    subst h
    exact ⟨fun n hn => (getProp_setProp_of_ne _ _ hn).trans (h0 n hn), fun _ => h0p⟩
  · simp only [ne_eq, hv, not_false_eq_true, if_true] at h
    by_cases hc : ',' ∈ value.data
    · simp only [hc, if_true] at h
      obtain ⟨e1, e2⟩ := commaItems_frame name value _ sv0 sv' h
      exact ⟨fun n hn => (e1 n hn).trans (h0 n hn), fun _ => e2.trans h0p⟩
    · simp only [hc, if_false] at h
      by_cases hn : name = "PREFIX"
      · simp only [hn, if_true] at h
        unfold prefixBranch at h
        have := prefixModes_frame _ _ _ _ _ _ sv' h
        exact ⟨fun n hn2 => (this n (hn ▸ hn2)).trans (h0 n hn2), fun hx => absurd hn hx⟩
      · simp only [hn, if_false, Outcome.server?, Option.some.injEq] at h
        subst h
        exact ⟨fun n hn2 => (getProp_setProp_of_ne _ _ hn2).trans (h0 n hn2), fun _ => h0p⟩

theorem featureParams_frame (params : List String) (sv : Server) :
    ∀ sv', (featureParams sv params).server? = some sv' →
      (∀ n, n ∉ params.map paramName → getProp sv'.ISUPPORT n = getProp sv.ISUPPORT n)
        ∧ ("PREFIX" ∉ params.map paramName → sv'.prefixes = sv.prefixes) := by
  induction params generalizing sv with
  | nil =>
    intro sv' h
    simp only [featureParams, Outcome.server?, Option.some.injEq] at h
    subst h
    exact ⟨fun _ _ => rfl, fun _ => rfl⟩
  | cons param rest ih =>
    intro sv' h
    unfold featureParams at h
    rw [featureParam_eq] at h
    have hb := featureBody_frame sv (paramName param) (paramValue param)
    cases ho : featureBody sv (paramName param) (paramValue param) with
    | ok sv1 =>
      rw [ho] at h hb
      simp only [Outcome.andThen] at h
      obtain ⟨e1, e2⟩ := ih sv1 sv' h
      obtain ⟨f1, f2⟩ := hb sv1 rfl
      simp only [List.map_cons, List.mem_cons, not_or]
      exact ⟨fun n hn => (e1 n hn.2).trans (f1 n hn.1),
        fun hn => (e2 hn.2).trans (f2 (Ne.symm hn.1))⟩
    | threw sv1 =>
      rw [ho] at h hb
      simp only [Outcome.andThen] at h
      obtain ⟨f1, f2⟩ := hb sv' h
      simp only [List.map_cons, List.mem_cons, not_or]
      exact ⟨fun n hn => f1 n hn.1, fun hn => f2 (Ne.symm hn.1)⟩
    | unmodelled =>
      rw [ho] at h
      simp [Outcome.andThen, Outcome.server?] at h

theorem featureParams_append (l1 l2 : List String) (sv : Server) :
    featureParams sv (l1 ++ l2)
      = (featureParams sv l1).andThen fun sv1 => featureParams sv1 l2 := by
  induction l1 generalizing sv with
  | nil => rfl
  | cons p rest ih =>
    simp only [List.cons_append, featureParams]
    cases featureParam sv p with
    | ok sv1 => simp only [Outcome.andThen]; exact ih sv1
    | threw sv1 => rfl
    | unmodelled => rfl

/-! ## Handling a token a second time -/

theorem mem_keys_setProp {β : Type} (m : List (String × β)) (k k' : String) (v : β)
    (h : k ∈ keys m) : k ∈ keys (setProp m k' v) := by
  rw [mem_keys_iff] at h ⊢
  by_cases e : k = k'
  · subst e
    exact ⟨v, getProp_setProp_same _ _ _⟩
  · rw [getProp_setProp_of_ne _ _ e]
    exact h

theorem mem_keys_setAll {β : Type} (ws m : List (String × β)) (k : String)
    (h : k ∈ keys m) : k ∈ keys (setAll m ws) := by
  induction ws generalizing m with
  | nil => exact h
  | cons kv ws ih =>
    obtain ⟨k1, v1⟩ := kv
    rw [setAll_cons]
    exact ih _ (mem_keys_setProp _ _ _ _ h)

theorem setProp_comm {β : Type} (m : List (String × β)) (k k' : String) (v v' : β)
    (hne : k ≠ k') (hk : k ∈ keys m) :
    setProp (setProp m k v) k' v' = setProp (setProp m k' v') k v := by
  induction m with
  | nil => simp [keys] at hk
  | cons kv rest ih =>
    obtain ⟨k1, w⟩ := kv
    by_cases h1 : k1 = k
    · subst h1
      simp [setProp, hne]
    · by_cases h2 : k1 = k'
      · subst h2
        simp [setProp, h1]
      · have hk2 : k ∈ keys rest := by
          simp only [keys, List.map_cons, List.mem_cons] at hk
          rcases hk with hk | hk
          · exact absurd hk.symm h1
          · exact hk
        simp [setProp, h1, h2, ih hk2]

theorem setAll_setProp_of_mem {β : Type} (ws X : List (String × β)) (k : String) (v : β)
    (hk : k ∈ keys ws) (hX : k ∈ keys X) : setAll (setProp X k v) ws = setAll X ws := by
  induction ws generalizing X with
  | nil => simp [keys] at hk
  | cons kv r ih =>
    obtain ⟨k1, v1⟩ := kv
    rw [setAll_cons, setAll_cons]
    by_cases e : k1 = k
    · subst e
      rw [setProp_setProp_same]
    · have hk2 : k ∈ keys r := by
        simp only [keys, List.map_cons, List.mem_cons] at hk
        rcases hk with hk | hk
        · exact absurd hk.symm e
        · exact hk
      rw [setProp_comm X k k1 v v1 (Ne.symm e) hX]
      exact ih _ hk2 (mem_keys_setProp _ _ _ _ hX)

theorem setAll_idem {β : Type} (ws m : List (String × β)) :
    setAll (setAll m ws) ws = setAll m ws := by
  induction ws generalizing m with
  | nil => rfl
  | cons kv r ih =>
    obtain ⟨k, v⟩ := kv
    rw [setAll_cons, setAll_cons]
    have hpres : k ∈ keys (setAll (setProp m k v) r) :=
      mem_keys_setAll _ _ _ ((mem_keys_iff _ _).mpr ⟨v, getProp_setProp_same _ _ _⟩)
    by_cases hk : k ∈ keys r
    · rw [setAll_setProp_of_mem r _ k v hk hpres]
      exact ih _
    · have : getProp (setAll (setProp m k v) r) k = some v := by
        rw [getProp_setAll_of_not_mem _ _ _ hk, getProp_setProp_same]
      rw [setProp_of_getProp _ _ _ this]
      exact ih _

theorem assignSub_not_obj (sv : Server) (name : String) (name1 value1 : Option String)
    (h : ∀ props, getProp sv.ISUPPORT name ≠ some (.obj props))
    (hk : name1.getD "undefined" ≠ "__proto__") (sv' : Server) :
    assignSub sv name name1 value1 ≠ .ok sv' := by
  unfold assignSub
  cases hg : getProp sv.ISUPPORT name with
  | none => simp
  | some v =>
    cases v with
    | str s => simp [hk]
    | arr items => simp [hk]
    | obj props => exact absurd hg (h props)

theorem assignSub_proto (sv : Server) (name : String) (name1 value1 : Option String)
    (entry : Value) (h : getProp sv.ISUPPORT name = some entry)
    (hk : name1.getD "undefined" = "__proto__") :
    assignSub sv name name1 value1 = .ok sv := by
  simp [assignSub, h, hk]

theorem andThen_eq_ok (o : Outcome) (f : Server → Outcome) (sv' : Server)
    (h : o.andThen f = .ok sv') : ∃ sv1, o = .ok sv1 ∧ f sv1 = .ok sv' := by
  cases o with
  | ok sv1 => exact ⟨sv1, rfl, h⟩
  | threw sv1 => simp [Outcome.andThen] at h
  | unmodelled => simp [Outcome.andThen] at h

theorem andThen_ne_ok (o : Outcome) (f : Server → Outcome) (sv' : Server)
    (h : ∀ sv1, o ≠ .ok sv1) : o.andThen f ≠ .ok sv' := by
  intro hc
  obtain ⟨sv1, h1, -⟩ := andThen_eq_ok o f sv' hc
  exact h sv1 h1

theorem subWrites_cons (param1 : String) (rest : List String) :
    subWrites (param1 :: rest) =
      (if (if ')' ∈ param1.data then destructure2 (remove (partition param1 ':') 1)
            else (none, none)).1.getD "undefined" = "__proto__" then subWrites rest
        else ((if ')' ∈ param1.data then destructure2 (remove (partition param1 ':') 1)
            else (none, none)).1.getD "undefined",
          (if ')' ∈ param1.data then destructure2 (remove (partition param1 ':') 1)
            else (none, none)).2) :: subWrites rest) := by
  simp only [subWrites, List.filterMap_cons]
  by_cases hk : (if ')' ∈ param1.data then destructure2 (remove (partition param1 ':') 1)
          else (none, none)).1.getD "undefined" = "__proto__" <;> simp [hk]

theorem commaItems_sub_obj (name value : String) (hv : ')' ∈ value.data)
    (items : List String) (isupport : List (String × Value))
    (prefixes : Option (List (String × PrefixEntry))) (props : List (String × Option String))
    (hobj : getProp isupport name = some (.obj props)) :
    commaItems name value ⟨isupport, prefixes⟩ items =
      .ok ⟨setProp isupport name (.obj (setAll props (subWrites items))), prefixes⟩ := by
  induction items generalizing isupport props with
  | nil => simp [commaItems, subWrites, setAll_nil, setProp_of_getProp _ _ _ hobj]
  | cons param1 rest ih =>
    unfold commaItems
    simp only [hv, if_true]
    rw [subWrites_cons]
    generalize (if ')' ∈ param1.data then destructure2 (remove (partition param1 ':') 1)
      else (none, none)) = pair
    by_cases hk : pair.1.getD "undefined" = "__proto__"
    · have ha : assignSub ⟨isupport, prefixes⟩ name pair.1 pair.2 = .ok ⟨isupport, prefixes⟩ := by
        simp [assignSub, hobj, hk]
      rw [ha]
      simp only [Outcome.andThen, hk, if_true]
      exact ih isupport props hobj
    · rw [assignSub_obj _ _ _ _ props hobj hk]
      simp only [Outcome.andThen, hk, if_false]
      rw [ih _ _ (getProp_setProp_same _ _ _)]
      simp [setProp_setProp_same, setAll_cons]

theorem commaItems_sub_not_obj (name value : String) (hv : ')' ∈ value.data)
    (items : List String) (hw : subWrites items ≠ []) (sv : Server)
    (h : ∀ props, getProp sv.ISUPPORT name ≠ some (.obj props)) (sv' : Server) :
    commaItems name value sv items ≠ .ok sv' := by
  induction items with
  | nil => exact absurd rfl hw
  | cons param1 rest ih =>
    unfold commaItems
    simp only [hv, if_true]
    rw [subWrites_cons] at hw
    generalize (if ')' ∈ param1.data then destructure2 (remove (partition param1 ':') 1)
      else (none, none)) = pair at hw
    by_cases hk : pair.1.getD "undefined" = "__proto__"
    · simp only [hk, if_true] at hw
      cases hg : getProp sv.ISUPPORT name with
      | none =>
        refine andThen_ne_ok _ _ _ ?_
        intro sv1
        simp [assignSub, hg]
      | some entry =>
        rw [assignSub_proto sv name _ _ entry hg hk]
        exact ih hw
    · exact andThen_ne_ok _ _ _ (assignSub_not_obj sv name _ _ h hk)

theorem commaItems_sub_noop (name value : String) (hv : ')' ∈ value.data)
    (items : List String) (hw : subWrites items = []) (sv : Server) (entry : Value)
    (h : getProp sv.ISUPPORT name = some entry) :
    commaItems name value sv items = .ok sv := by
  induction items with
  | nil => rfl
  | cons param1 rest ih =>
    unfold commaItems
    simp only [hv, if_true]
    rw [subWrites_cons] at hw
    generalize (if ')' ∈ param1.data then destructure2 (remove (partition param1 ':') 1)
      else (none, none)) = pair at hw
    by_cases hk : pair.1.getD "undefined" = "__proto__"
    · simp only [hk, if_true] at hw
      rw [assignSub_proto sv name _ _ entry h hk]
      exact ih hw
    · simp [hk] at hw

theorem prefixModes_not_obj (name : String) (levels : List (String × Option String))
    (symbols : Option String) (sv : Server) (mode : Char) (rest : List Char) (count : Nat)
    (h : ∀ props, getProp sv.ISUPPORT name ≠ some (.obj props)) (sv' : Server) :
    prefixModes name levels symbols sv (mode :: rest) count ≠ .ok sv' := by
  unfold prefixModes
  cases symbols with
  | none => simp
  | some syms =>
    simp only
    split
    · cases hf : findLevel mode levels with
      | none => simp
      | some found =>
        cases found with
        | none =>
          exact andThen_ne_ok _ _ _
            (assignSub_not_obj _ name _ _ h (by simpa using singleton_ne_proto mode))
        | some level =>
          exact andThen_ne_ok _ _ _
            (assignSub_not_obj _ name _ _ h (by simpa using singleton_ne_proto mode))
    · simp

theorem prefixModes_transfer (name : String) (levels : List (String × Option String))
    (symbols : Option String) (rest : List Char) (sv sv' : Server) (count : Nat)
    (h : prefixModes name levels symbols sv rest count = .ok sv')
    (isupport : List (String × Value)) (props : List (String × Option String))
    (table : List (String × PrefixEntry))
    (hobj : getProp isupport name = some (.obj props)) :
    prefixModes name levels symbols ⟨isupport, some table⟩ rest count =
      .ok ⟨setProp isupport name
          (.obj (setAll props (prefixWrites (symbols.getD "").data rest count))),
        some (setAll table (tableWrites levels (symbols.getD "").data rest count))⟩ := by
  induction rest generalizing sv count isupport props table with
  | nil =>
    simp [prefixModes, prefixWrites, tableWrites, setAll_nil, setProp_of_getProp _ _ _ hobj]
  | cons mode rest ih =>
    unfold prefixModes at h ⊢
    cases symbols with
    | none => simp at h
    | some syms =>
      simp only at h ⊢
      by_cases hb : ((syms.data.take (count + 1)).all isBMP) = true
      · simp only [hb, if_true] at h ⊢
        cases hf : findLevel mode levels with
        | none => simp [hf] at h
        | some found =>
          cases found with
          | none =>
            simp only [hf] at h ⊢
            obtain ⟨sv1, -, h1⟩ := andThen_eq_ok _ _ _ h
            rw [assignSub_obj _ _ _ _ props hobj (by simpa using singleton_ne_proto mode)]
            simp only [Outcome.andThen, Option.getD_some]
            rw [ih sv1 (count + 1) h1 _ _ _ (getProp_setProp_same _ _ _)]
            simp [prefixWrites, tableWrites, hf, setProp_setProp_same, setAll_cons]
          | some level =>
            simp only [hf] at h ⊢
            obtain ⟨sv1, -, h1⟩ := andThen_eq_ok _ _ _ h
            rw [assignSub_obj _ _ _ _ props hobj (by simpa using singleton_ne_proto mode)]
            simp only [Outcome.andThen, Option.getD_some]
            rw [ih sv1 (count + 1) h1 _ _ _ (getProp_setProp_same _ _ _)]
            simp [prefixWrites, tableWrites, hf, setProp_setProp_same, setAll_cons]
      · simp [hb] at h

theorem ensure_entry (sv : Server) (name : String) :
    ∃ isupport0,
      (if name ∈ keys sv.ISUPPORT then sv
        else { sv with ISUPPORT := setProp sv.ISUPPORT name (.obj []) } : Server)
        = ⟨isupport0, sv.prefixes⟩ ∧
      getProp isupport0 name = some ((getProp sv.ISUPPORT name).getD (.obj [])) ∧
      ∀ v, setProp isupport0 name v = setProp sv.ISUPPORT name v := by
  by_cases hk : name ∈ keys sv.ISUPPORT
  · obtain ⟨v, hv⟩ := (mem_keys_iff _ _).mp hk
    exact ⟨sv.ISUPPORT, by simp [hk], by simp [hv], fun _ => rfl⟩
  · have hn := (not_mem_keys_iff _ _).mp hk
    exact ⟨setProp sv.ISUPPORT name (.obj []), by simp [hk],
      by simp [hn, getProp_setProp_same], fun _ => setProp_setProp_same _ _ _ _⟩

theorem splitChars_ne_nil (sep : Char) (s : List Char) :
    ∃ seg segs, splitChars sep s = seg :: segs := by
  induction s with
  | nil => exact ⟨[], [], rfl⟩
  | cons c cs ih =>
    obtain ⟨seg, segs, h⟩ := ih
    unfold splitChars
    by_cases hc : c = sep
    · exact ⟨[], splitChars sep cs, by simp [hc]⟩
    · exact ⟨c :: seg, segs, by simp [hc, h]⟩

theorem split_ne_nil (str : String) (sep : Char) :
    ∃ p rest, split str sep = p :: rest := by
  obtain ⟨seg, segs, h⟩ := splitChars_ne_nil sep str.data
  exact ⟨String.mk seg, segs.map String.mk, by simp [split, h]⟩

theorem featureBody_scalar (sv : Server) (name value : String) (hp : name ≠ "__proto__")
    (hv : value ≠ "") (hc : ',' ∉ value.data) (hn : name ≠ "PREFIX") :
    featureBody sv name value = .ok ⟨setProp sv.ISUPPORT name (.str value), sv.prefixes⟩ := by
  unfold featureBody
  by_cases hk : name ∈ keys sv.ISUPPORT
  · simp [hp, hk, hv, hc, hn]
  · simp [hp, hk, hv, hc, hn, setProp_setProp_same]

theorem featureBody_comma (sv : Server) (name value : String) (hp : name ≠ "__proto__")
    (hc : ',' ∈ value.data) :
    featureBody sv name value =
      commaItems name value
        (if name ∈ keys sv.ISUPPORT then sv
          else { sv with ISUPPORT := setProp sv.ISUPPORT name (.obj []) })
        (split value ',') := by
  have hv : value ≠ "" := by
    rintro rfl
    exact absurd hc (by decide)
  unfold featureBody
  simp [hp, hv, hc]

theorem featureBody_acts (name value : String)
    (hlist : ',' ∈ value.data → ')' ∈ value.data) :
    ∃ (f : Option Value → Option Value) (built : Option (List (String × PrefixEntry))),
      (∀ x v, f x = some v → f (some v) = some v) ∧
      (built ≠ none → name = "PREFIX") ∧
      ∀ sv : Server,
        (∀ v, f (getProp sv.ISUPPORT name) = some v →
          featureBody sv name value
            = .ok ⟨setProp sv.ISUPPORT name v, newPrefixes built sv⟩) ∧
        (f (getProp sv.ISUPPORT name) = none →
          ∀ sv', featureBody sv name value ≠ .ok sv') := by
  by_cases hp : name = "__proto__"
  · refine ⟨fun _ => none, none, by simp, by simp, fun sv => ⟨by simp, fun _ sv' => ?_⟩⟩
    unfold featureBody
    rw [if_pos hp]
    split <;> simp
  by_cases hv : value = ""
  · subst hv
    refine ⟨fun _ => some (.str ""), none, by simp, by simp, fun sv => ⟨?_, by simp⟩⟩
    intro v hv
    simp only [Option.some.injEq] at hv
    subst hv
    exact featureBody_empty sv name hp
  by_cases hc : ',' ∈ value.data
  · -- the items are written into the sub-key map
    have hparen := hlist hc
    by_cases hw : subWrites (split value ',') = []
    · refine ⟨fun x => some (x.getD (.obj [])), none, by simp, by simp,
        fun sv => ⟨?_, by simp⟩⟩
      intro v hv2
      simp only [Option.some.injEq] at hv2
      subst hv2
      obtain ⟨isupport0, he, hget, hset⟩ := ensure_entry sv name
      rw [featureBody_comma sv name value hp hc, he,
        commaItems_sub_noop name value hparen _ hw _ _ hget, ← hset,
        setProp_of_getProp _ _ _ hget]
      rfl
    refine ⟨fun x => match x.getD (.obj []) with
        | .obj props => some (.obj (setAll props (subWrites (split value ','))))
        | _ => none, none, ?_, by simp, fun sv => ?_⟩
    · intro x v hx
      cases hx0 : x.getD (.obj []) with
      | str s => simp [hx0] at hx
      | arr items => simp [hx0] at hx
      | obj props =>
        simp only [hx0, Option.some.injEq] at hx
        subst hx
        simp [setAll_idem]
    · obtain ⟨isupport0, he, hget, hset⟩ := ensure_entry sv name
      rw [featureBody_comma sv name value hp hc, he]
      cases hx0 : (getProp sv.ISUPPORT name).getD (.obj []) with
      | str s =>
        refine ⟨by simp [hx0], fun _ sv' => ?_⟩
        refine commaItems_sub_not_obj name value hparen _ hw _ ?_ sv'
        intro props
        simp [hget, hx0]
      | arr items =>
        refine ⟨by simp [hx0], fun _ sv' => ?_⟩
        refine commaItems_sub_not_obj name value hparen _ hw _ ?_ sv'
        intro props
        simp [hget, hx0]
      | obj props =>
        refine ⟨fun v hv => ?_, by simp [hx0]⟩
        simp only [hx0, Option.some.injEq] at hv
        subst hv
        rw [commaItems_sub_obj name value hparen _ isupport0 sv.prefixes props
          (by rw [hget, hx0]), hset]
        rfl
  by_cases hn : name = "PREFIX"
  · subst hn
    obtain ⟨levels, symbols, modes, hbranch⟩ :
        ∃ levels symbols modes, ∀ sv : Server, prefixBranch sv "PREFIX" value
          = prefixModes "PREFIX" levels symbols ⟨sv.ISUPPORT, some []⟩ modes 0 :=
      ⟨_, _, _, fun _ => rfl⟩
    have hbody : ∀ sv : Server, ∀ isupport0,
        (if "PREFIX" ∈ keys sv.ISUPPORT then sv
          else { sv with ISUPPORT := setProp sv.ISUPPORT "PREFIX" (.obj []) } : Server)
          = ⟨isupport0, sv.prefixes⟩ →
        featureBody sv "PREFIX" value
          = prefixModes "PREFIX" levels symbols ⟨isupport0, some []⟩ modes 0 := by
      intro sv isupport0 he
      have := featureBody_prefixBranch sv value hv hc
      rw [this]
      have he2 : (if "PREFIX" ∈ keys sv.ISUPPORT then sv
          else ⟨setProp sv.ISUPPORT "PREFIX" (.obj []), sv.prefixes⟩ : Server)
          = ⟨isupport0, sv.prefixes⟩ := he
      rw [he2, hbranch]
    cases modes with
    | nil =>
      refine ⟨fun x => some (x.getD (.obj [])), some [], by simp, by simp, fun sv => ⟨?_, by simp⟩⟩
      intro v hv2
      simp only [Option.some.injEq] at hv2
      subst hv2
      obtain ⟨isupport0, he, hget, hset⟩ := ensure_entry sv "PREFIX"
      rw [hbody sv isupport0 he, ← hset, setProp_of_getProp _ _ _ hget]
      rfl
    | cons mode rest =>
      by_cases hex : ∃ sv sv', prefixModes "PREFIX" levels symbols sv (mode :: rest) 0 = .ok sv'
      · obtain ⟨svw, svw', hw⟩ := hex
        refine ⟨fun x => match x.getD (.obj []) with
            | .obj props =>
              some (.obj (setAll props (prefixWrites (symbols.getD "").data (mode :: rest) 0)))
            | _ => none,
          some (setAll [] (tableWrites levels (symbols.getD "").data (mode :: rest) 0)),
          ?_, by simp, fun sv => ?_⟩
        · intro x v hx
          cases hx0 : x.getD (.obj []) with
          | str s => simp [hx0] at hx
          | arr items => simp [hx0] at hx
          | obj props =>
            simp only [hx0, Option.some.injEq] at hx
            subst hx
            simp [setAll_idem]
        · obtain ⟨isupport0, he, hget, hset⟩ := ensure_entry sv "PREFIX"
          rw [hbody sv isupport0 he]
          cases hx0 : (getProp sv.ISUPPORT "PREFIX").getD (.obj []) with
          | str s =>
            refine ⟨by simp [hx0], fun _ sv' => ?_⟩
            refine prefixModes_not_obj _ _ _ _ _ _ _ ?_ sv'
            intro props
            simp [hget, hx0]
          | arr items =>
            refine ⟨by simp [hx0], fun _ sv' => ?_⟩
            refine prefixModes_not_obj _ _ _ _ _ _ _ ?_ sv'
            intro props
            simp [hget, hx0]
          | obj props =>
            refine ⟨fun v hv2 => ?_, by simp [hx0]⟩
            simp only [hx0, Option.some.injEq] at hv2
            subst hv2
            rw [prefixModes_transfer _ _ _ _ _ _ _ hw isupport0 props []
              (by rw [hget, hx0]), hset]
            rfl
      · refine ⟨fun _ => none, none, by simp, by simp, fun sv => ⟨by simp, fun _ sv' => ?_⟩⟩
        obtain ⟨isupport0, he, -, -⟩ := ensure_entry sv "PREFIX"
        rw [hbody sv isupport0 he]
        intro hc2
        exact hex ⟨_, _, hc2⟩
  · refine ⟨fun _ => some (.str value), none, by simp, by simp, fun sv => ⟨?_, by simp⟩⟩
    intro v hv2
    simp only [Option.some.injEq] at hv2
    subst hv2
    exact featureBody_scalar sv name value hp hv hc hn

theorem newPrefixes_idem (built : Option (List (String × PrefixEntry))) (a : List (String × Value))
    (sv : Server) : newPrefixes built ⟨a, newPrefixes built sv⟩ = newPrefixes built sv := by
  cases built <;> rfl

theorem featureBody_absorb_after (sv sv' : Server) (name value : String)
    (hlist : ',' ∈ value.data → ')' ∈ value.data)
    (h : featureBody sv name value = .ok sv') : featureBody sv' name value = .ok sv' := by
  obtain ⟨f, built, hidem, -, hacts⟩ := featureBody_acts name value hlist
  cases hf : f (getProp sv.ISUPPORT name) with
  | none => exact absurd h ((hacts sv).2 hf sv')
  | some v =>
    have h1 := (hacts sv).1 v hf
    rw [h1] at h
    simp only [Outcome.ok.injEq] at h
    subst h
    have h2 := (hacts ⟨setProp sv.ISUPPORT name v, newPrefixes built sv⟩).1 v
      (by simp only [getProp_setProp_same]; exact hidem _ _ hf)
    rw [h2]
    simp [setProp_setProp_same, newPrefixes_idem]

theorem featureBody_absorb_local (sv sv2 : Server) (name value : String)
    (hlist : ',' ∈ value.data → ')' ∈ value.data)
    (h : featureBody sv name value = .ok sv)
    (hentry : getProp sv2.ISUPPORT name = getProp sv.ISUPPORT name)
    (hpre : name = "PREFIX" → sv2.prefixes = sv.prefixes) :
    featureBody sv2 name value = .ok sv2 := by
  obtain ⟨f, built, -, hbuilt, hacts⟩ := featureBody_acts name value hlist
  cases hf : f (getProp sv.ISUPPORT name) with
  | none => exact absurd h ((hacts sv).2 hf sv)
  | some v =>
    have h1 := (hacts sv).1 v hf
    rw [h1] at h
    simp only [Outcome.ok.injEq] at h
    have hv : getProp sv.ISUPPORT name = some v := by
      have := congrArg (fun s : Server => getProp s.ISUPPORT name) h
      simp only [getProp_setProp_same] at this
      exact this.symm
    have hp : newPrefixes built sv = sv.prefixes := by
      have := congrArg Server.prefixes h
      exact this
    rw [(hacts sv2).1 v (by rw [hentry]; exact hf)]
    have e1 : setProp sv2.ISUPPORT name v = sv2.ISUPPORT :=
      setProp_of_getProp _ _ _ (by rw [hentry]; exact hv)
    have e2 : newPrefixes built sv2 = sv2.prefixes := by
      cases built with
      | none => rfl
      | some table =>
        have := hpre (hbuilt (by simp))
        rw [this, ← hp]
        rfl
    rw [e1, e2]

theorem featureParams_absorbed (tokens : List String)
    (hlist : ∀ t ∈ tokens, ',' ∈ (paramValue t).data → ')' ∈ (paramValue t).data)
    (hnames : (tokens.map paramName).Nodup) (sv sv1 : Server)
    (h : featureParams sv tokens = .ok sv1) :
    ∀ t ∈ tokens, featureParam sv1 t = .ok sv1 := by
  induction tokens generalizing sv with
  | nil => intro t ht; simp at ht
  | cons t rest ih =>
    unfold featureParams at h
    obtain ⟨svt, h1, h2⟩ := andThen_eq_ok _ _ _ h
    simp only [List.map_cons, List.nodup_cons] at hnames
    intro t' ht'
    rcases List.mem_cons.mp ht' with rfl | hmem
    · rw [featureParam_eq] at h1 ⊢
      have hl := hlist t' (List.mem_cons_self _ _)
      have h3 := featureBody_absorb_after sv svt _ _ hl h1
      obtain ⟨f1, f2⟩ := featureParams_frame rest svt sv1 (by rw [h2]; rfl)
      exact featureBody_absorb_local svt sv1 _ _ hl h3 (f1 _ hnames.1)
        (fun hp => f2 (hp ▸ hnames.1))
    · exact ih (fun x hx => hlist x (List.mem_cons_of_mem _ hx)) hnames.2 svt h2 t' hmem

theorem featureParams_of_absorbed (tokens : List String) (sv1 : Server)
    (h : ∀ t ∈ tokens, featureParam sv1 t = .ok sv1) : featureParams sv1 tokens = .ok sv1 := by
  induction tokens with
  | nil => rfl
  | cons t rest ih =>
    unfold featureParams
    rw [h t (List.mem_cons_self _ _)]
    exact ih (fun x hx => h x (List.mem_cons_of_mem _ hx))

theorem andThen_eq_threw (o : Outcome) (f : Server → Outcome) (sv' : Server)
    (h : o.andThen f = .threw sv') :
    o = .threw sv' ∨ ∃ sv1, o = .ok sv1 ∧ f sv1 = .threw sv' := by
  cases o with
  | ok sv1 => exact Or.inr ⟨sv1, rfl, h⟩
  | threw sv1 => exact Or.inl h
  | unmodelled => simp [Outcome.andThen] at h

theorem assignSub_threw (sv : Server) (name : String) (name1 value1 : Option String)
    (sv' : Server) (h : assignSub sv name name1 value1 = .threw sv') : sv' = sv := by
  unfold assignSub at h
  cases hg : getProp sv.ISUPPORT name with
  | none => simp [hg] at h; exact h.symm
  | some v =>
    simp only [hg] at h
    by_cases hk : name1.getD "undefined" = "__proto__"
    · simp [hk] at h
    · simp only [hk, if_false] at h
      cases v with
      | str s => simp at h; exact h.symm
      | arr items => simp at h
      | obj props => simp at h

theorem commaItems_threw (name value : String) (hv : ')' ∈ value.data)
    (items : List String) (sv sv' : Server)
    (h : commaItems name value sv items = .threw sv') : sv' = sv := by
  by_cases hobj : ∃ props, getProp sv.ISUPPORT name = some (.obj props)
  · obtain ⟨props, hp⟩ := hobj
    rw [commaItems_sub_obj name value hv items sv.ISUPPORT sv.prefixes props hp] at h
    simp at h
  · induction items with
    | nil => simp [commaItems] at h
    | cons param1 rest ih =>
      unfold commaItems at h
      simp only [hv, if_true] at h
      rcases andThen_eq_threw _ _ _ h with h1 | ⟨sv1, h1, h2⟩
      · exact assignSub_threw _ _ _ _ _ h1
      · have hsv1 : sv1 = sv := by
          unfold assignSub at h1
          cases hg : getProp sv.ISUPPORT name with
          | none => simp [hg] at h1
          | some v =>
            simp only [hg] at h1
            by_cases hk : (if ')' ∈ param1.data
                then destructure2 (remove (partition param1 ':') 1)
                else (none, none)).1.getD "undefined" = "__proto__"
            · simp only [hk, if_true, Outcome.ok.injEq] at h1
              exact h1.symm
            · simp only [hk, if_false] at h1
              cases v with
              | str s => simp at h1
              | arr items => simp at h1
              | obj props => exact absurd ⟨props, hg⟩ hobj
        subst hsv1
        exact ih h2

theorem prefixModes_threw_obj (name : String) (levels : List (String × Option String))
    (symbols : Option String) (rest : List Char) (count : Nat)
    (isupport : List (String × Value)) (props : List (String × Option String))
    (table : List (String × PrefixEntry)) (sv' : Server)
    (hobj : getProp isupport name = some (.obj props))
    (h : prefixModes name levels symbols ⟨isupport, some table⟩ rest count = .threw sv') :
    ∃ W T, ∀ isupport2 props2 table2, getProp isupport2 name = some (.obj props2) →
      prefixModes name levels symbols ⟨isupport2, some table2⟩ rest count =
        .threw ⟨setProp isupport2 name (.obj (setAll props2 W)), some (setAll table2 T)⟩ := by
  induction rest generalizing count isupport props table with
  | nil => simp [prefixModes] at h
  | cons mode rest ih =>
    unfold prefixModes at h
    cases symbols with
    | none =>
      refine ⟨[], [], fun isupport2 props2 table2 h2 => ?_⟩
      simp [prefixModes, setAll_nil, setProp_of_getProp _ _ _ h2]
    | some syms =>
      simp only at h
      by_cases hb : ((syms.data.take (count + 1)).all isBMP) = true
      · simp only [hb, if_true] at h
        cases hf : findLevel mode levels with
        | none =>
          refine ⟨[], [], fun isupport2 props2 table2 h2 => ?_⟩
          unfold prefixModes
          simp [hb, hf, setAll_nil, setProp_of_getProp _ _ _ h2]
        | some found =>
          cases found with
          | none =>
            simp only [hf] at h
            rw [assignSub_obj _ _ _ _ props hobj (by simpa using singleton_ne_proto mode)] at h
            simp only [Outcome.andThen, Option.getD_some] at h
            obtain ⟨W, T, hWT⟩ := ih (count + 1) _ _ _ (getProp_setProp_same _ _ _) h
            refine ⟨(String.singleton mode, (syms.data.get? count).map String.singleton) :: W,
              T, fun isupport2 props2 table2 h2 => ?_⟩
            unfold prefixModes
            simp only [hb, if_true, hf]
            rw [assignSub_obj _ _ _ _ props2 h2 (by simpa using singleton_ne_proto mode)]
            simp only [Outcome.andThen, Option.getD_some]
            rw [hWT _ _ _ (getProp_setProp_same _ _ _)]
            simp [setProp_setProp_same, setAll_cons]
          | some level =>
            simp only [hf] at h
            rw [assignSub_obj _ _ _ _ props hobj (by simpa using singleton_ne_proto mode)] at h
            simp only [Outcome.andThen, Option.getD_some] at h
            obtain ⟨W, T, hWT⟩ := ih (count + 1) _ _ _ (getProp_setProp_same _ _ _) h
            refine ⟨(String.singleton mode, (syms.data.get? count).map String.singleton) :: W,
              (((syms.data.get? count).map String.singleton).getD "undefined",
                ⟨String.singleton mode, level⟩) :: T,
              fun isupport2 props2 table2 h2 => ?_⟩
            unfold prefixModes
            simp only [hb, if_true, hf]
            rw [assignSub_obj _ _ _ _ props2 h2 (by simpa using singleton_ne_proto mode)]
            simp only [Outcome.andThen, Option.getD_some]
            rw [hWT _ _ _ (getProp_setProp_same _ _ _)]
            simp [setProp_setProp_same, setAll_cons]
      · simp [hb] at h

theorem prefixModes_threw_not_obj (name : String) (levels : List (String × Option String))
    (symbols : Option String) (rest : List Char) (count : Nat) (sv sv' : Server)
    (hobj : ∀ props, getProp sv.ISUPPORT name ≠ some (.obj props))
    (h : prefixModes name levels symbols sv rest count = .threw sv') :
    sv'.ISUPPORT = sv.ISUPPORT := by
  cases rest with
  | nil => simp [prefixModes] at h
  | cons mode rest =>
    unfold prefixModes at h
    cases symbols with
    | none => simp at h; rw [← h]
    | some syms =>
      simp only at h
      by_cases hb : ((syms.data.take (count + 1)).all isBMP) = true
      · simp only [hb, if_true] at h
        cases hf : findLevel mode levels with
        | none => simp [hf] at h; rw [← h]
        | some found =>
          simp only [hf] at h
          rcases andThen_eq_threw _ _ _ h with h1 | ⟨sv1, h1, -⟩
          · rw [assignSub_threw _ _ _ _ _ h1]
            cases found <;> rfl
          · refine absurd h1 (assignSub_not_obj _ name _ _ ?_
              (by simpa using singleton_ne_proto mode) sv1)
            cases found <;> exact hobj
      · simp [hb] at h

theorem ensure_of_entry (sv : Server) (name : String) (entry : Value)
    (h : getProp sv.ISUPPORT name = some entry) :
    (if name ∈ keys sv.ISUPPORT then sv
      else { sv with ISUPPORT := setProp sv.ISUPPORT name (.obj []) } : Server)
      = ⟨sv.ISUPPORT, sv.prefixes⟩ := by
  have : name ∈ keys sv.ISUPPORT := (mem_keys_iff _ _).mpr ⟨entry, h⟩
  simp [this]

theorem featureBody_prefix_modes (value : String) (hv : value ≠ "") (hc : ',' ∉ value.data) :
    ∃ levels symbols modes, ∀ (sv : Server) isupport0,
      (if "PREFIX" ∈ keys sv.ISUPPORT then sv
        else { sv with ISUPPORT := setProp sv.ISUPPORT "PREFIX" (.obj []) } : Server)
        = ⟨isupport0, sv.prefixes⟩ →
      featureBody sv "PREFIX" value
        = prefixModes "PREFIX" levels symbols ⟨isupport0, some []⟩ modes 0 := by
  obtain ⟨levels, symbols, modes, hbranch⟩ :
      ∃ levels symbols modes, ∀ sv : Server, prefixBranch sv "PREFIX" value
        = prefixModes "PREFIX" levels symbols ⟨sv.ISUPPORT, some []⟩ modes 0 :=
    ⟨_, _, _, fun _ => rfl⟩
  refine ⟨levels, symbols, modes, fun sv isupport0 he => ?_⟩
  have he2 : (if "PREFIX" ∈ keys sv.ISUPPORT then sv
      else ⟨setProp sv.ISUPPORT "PREFIX" (.obj []), sv.prefixes⟩ : Server)
      = ⟨isupport0, sv.prefixes⟩ := he
  rw [featureBody_prefixBranch sv value hv hc, he2, hbranch]

theorem featureBody_threw_after (sv sv' : Server) (name value : String)
    (hlist : ',' ∈ value.data → ')' ∈ value.data)
    (h : featureBody sv name value = .threw sv') :
    featureBody sv' name value = .threw sv' := by
  by_cases hp : name = "__proto__"
  · unfold featureBody at h ⊢
    rw [if_pos hp] at h ⊢
    split at h
    · rename_i hc
      exact absurd (hlist hc.1) hc.2
    · simp at h
  by_cases hv : value = ""
  · subst hv
    rw [featureBody_empty sv name hp] at h
    simp at h
  by_cases hc : ',' ∈ value.data
  · obtain ⟨isupport0, he, hget, -⟩ := ensure_entry sv name
    rw [featureBody_comma sv name value hp hc, he] at h
    have hsv := commaItems_threw name value (hlist hc) _ _ _ h
    subst hsv
    rw [featureBody_comma _ name value hp hc, ensure_of_entry _ name _ hget]
    exact h
  by_cases hn : name = "PREFIX"
  · subst hn
    obtain ⟨levels, symbols, modes, hbody⟩ := featureBody_prefix_modes value hv hc
    obtain ⟨isupport0, he, hget, -⟩ := ensure_entry sv "PREFIX"
    rw [hbody sv isupport0 he] at h
    by_cases hobj : ∃ props, getProp isupport0 "PREFIX" = some (.obj props)
    · obtain ⟨props, hprops⟩ := hobj
      obtain ⟨W, T, hWT⟩ := prefixModes_threw_obj _ _ _ _ _ _ _ _ _ hprops h
      have h1 := hWT isupport0 props [] hprops
      rw [h1] at h
      simp only [Outcome.threw.injEq] at h
      subst h
      rw [hbody _ _ (ensure_of_entry _ "PREFIX" _ (getProp_setProp_same _ _ _)),
        hWT _ _ [] (getProp_setProp_same _ _ _)]
      simp [setProp_setProp_same, setAll_idem]
    · have hno : ∀ props, getProp isupport0 "PREFIX" ≠ some (.obj props) :=
        fun props hx => hobj ⟨props, hx⟩
      have hsame : sv'.ISUPPORT = isupport0 :=
        prefixModes_threw_not_obj _ _ _ _ _ ⟨isupport0, some []⟩ sv' hno h
      have hget2 : getProp sv'.ISUPPORT "PREFIX"
          = some ((getProp sv.ISUPPORT "PREFIX").getD (.obj [])) := by rw [hsame, hget]
      rw [hbody sv' sv'.ISUPPORT (ensure_of_entry _ "PREFIX" _ hget2), hsame]
      exact h
  · rw [featureBody_scalar sv name value hp hv hc hn] at h
    simp at h

theorem featureParams_threw_twice (tokens : List String)
    (hlist : ∀ t ∈ tokens, ',' ∈ (paramValue t).data → ')' ∈ (paramValue t).data)
    (hnames : (tokens.map paramName).Nodup) (sv sv1 : Server)
    (h : featureParams sv tokens = .threw sv1) :
    featureParams sv1 tokens = .threw sv1 := by
  induction tokens generalizing sv with
  | nil => simp [featureParams] at h
  | cons t rest ih =>
    have hl := hlist t (List.mem_cons_self _ _)
    simp only [List.map_cons, List.nodup_cons] at hnames
    unfold featureParams at h ⊢
    rcases andThen_eq_threw _ _ _ h with h1 | ⟨svt, h1, h2⟩
    · rw [featureParam_eq] at h1 ⊢
      rw [featureBody_threw_after sv sv1 _ _ hl h1]
      rfl
    · have habs : featureParam sv1 t = .ok sv1 := by
        rw [featureParam_eq] at h1 ⊢
        have h3 := featureBody_absorb_after sv svt _ _ hl h1
        obtain ⟨f1, f2⟩ := featureParams_frame rest svt sv1 (by rw [h2]; rfl)
        exact featureBody_absorb_local svt sv1 _ _ hl h3 (f1 _ hnames.1)
          (fun hp => f2 (hp ▸ hnames.1))
      rw [habs]
      exact ih (fun x hx => hlist x (List.mem_cons_of_mem _ hx)) hnames.2 svt h2

/-! ## List-valued tokens -/

theorem splitChars_intercalate (sep : Char) (items : List (List Char)) (hne : items ≠ [])
    (h : ∀ v ∈ items, sep ∉ v) :
    splitChars sep (List.intercalate [sep] items) = items := by
  induction items with
  | nil => exact absurd rfl hne
  | cons v rest ih =>
    cases rest with
    | nil =>
      simp only [List.intercalate, List.intersperse, List.flatten_cons, List.flatten_nil,
        List.append_nil]
      exact splitChars_of_not_mem sep v (h v (List.mem_cons_self _ _))
    | cons w rest =>
      have hv := h v (List.mem_cons_self _ _)
      have ih2 := ih (by simp) (fun x hx => h x (List.mem_cons_of_mem _ hx))
      have e : List.intercalate [sep] (v :: w :: rest)
          = v ++ sep :: List.intercalate [sep] (w :: rest) := by
        simp [List.intercalate, List.intersperse]
      rw [e, splitChars_append sep v _ hv, ih2]

theorem pushItem_arr (isupport : List (String × Value))
    (prefixes : Option (List (String × PrefixEntry))) (name param1 : String)
    (items : List String) (h : getProp isupport name = some (.arr items)) :
    pushItem ⟨isupport, prefixes⟩ name param1
      = .ok ⟨setProp isupport name (.arr (items ++ [param1])), prefixes⟩ := by
  simp [pushItem, h, isObject]

theorem pushItem_obj (isupport : List (String × Value))
    (prefixes : Option (List (String × PrefixEntry))) (name param1 : String)
    (props : List (String × Option String)) (h : getProp isupport name = some (.obj props)) :
    pushItem ⟨isupport, prefixes⟩ name param1
      = .ok ⟨setProp isupport name (.arr [param1]), prefixes⟩ := by
  have hk : name ∈ keys isupport := (mem_keys_iff _ _).mpr ⟨_, h⟩
  simp [pushItem, h, isObject, hk, getProp_setProp_same, setProp_setProp_same]

theorem commaItems_push (name value : String) (hv : ')' ∉ value.data)
    (items : List String) (isupport : List (String × Value))
    (prefixes : Option (List (String × PrefixEntry))) (held : List String)
    (h : getProp isupport name = some (.arr held)) :
    commaItems name value ⟨isupport, prefixes⟩ items
      = .ok ⟨setProp isupport name (.arr (held ++ items)), prefixes⟩ := by
  induction items generalizing isupport held with
  | nil => simp [commaItems, setProp_of_getProp _ _ _ h]
  | cons param1 rest ih =>
    unfold commaItems
    simp only [hv, if_false]
    rw [pushItem_arr _ _ _ _ _ h]
    simp only [Outcome.andThen]
    rw [ih _ _ (getProp_setProp_same _ _ _)]
    simp [setProp_setProp_same]

theorem commaItems_push_obj (name value : String) (hv : ')' ∉ value.data)
    (param1 : String) (rest : List String) (isupport : List (String × Value))
    (prefixes : Option (List (String × PrefixEntry))) (props : List (String × Option String))
    (h : getProp isupport name = some (.obj props)) :
    commaItems name value ⟨isupport, prefixes⟩ (param1 :: rest)
      = .ok ⟨setProp isupport name (.arr (param1 :: rest)), prefixes⟩ := by
  unfold commaItems
  simp only [hv, if_false]
  rw [pushItem_obj _ _ _ _ _ h]
  simp only [Outcome.andThen]
  rw [commaItems_push name value hv rest _ _ [param1] (getProp_setProp_same _ _ _)]
  simp [setProp_setProp_same]

theorem intercalate_cons_cons (sep : Char) (v w : List Char) (rest : List (List Char)) :
    List.intercalate [sep] (v :: w :: rest) = v ++ sep :: List.intercalate [sep] (w :: rest) := by
  simp [List.intercalate, List.intersperse]

theorem mem_intercalate (sep c : Char) (items : List (List Char))
    (h : c ∈ List.intercalate [sep] items) : c = sep ∨ ∃ v ∈ items, c ∈ v := by
  induction items with
  | nil => simp [List.intercalate] at h
  | cons v rest ih =>
    cases rest with
    | nil =>
      simp only [List.intercalate, List.intersperse, List.flatten_cons, List.flatten_nil,
        List.append_nil] at h
      exact Or.inr ⟨v, List.mem_cons_self _ _, h⟩
    | cons w rest =>
      rw [intercalate_cons_cons, List.mem_append, List.mem_cons] at h
      rcases h with h | h | h
      · exact Or.inr ⟨v, List.mem_cons_self _ _, h⟩
      · exact Or.inl h
      · rcases ih h with h1 | ⟨x, hx, hcx⟩
        · exact Or.inl h1
        · exact Or.inr ⟨x, List.mem_cons_of_mem _ hx, hcx⟩

theorem featureBody_list (sv : Server) (name value : String) (param1 : String)
    (rest : List String) (hproto : name ≠ "__proto__") (hnew : name ∉ keys sv.ISUPPORT)
    (hcomma : ',' ∈ value.data) (hparen : ')' ∉ value.data)
    (hsplit : split value ',' = param1 :: rest) :
    featureBody sv name value
      = .ok ⟨sv.ISUPPORT ++ [(name, .arr (param1 :: rest))], sv.prefixes⟩ := by
  rw [featureBody_comma _ _ _ hproto hcomma, hsplit]
  simp only [hnew, if_false]
  rw [commaItems_push_obj _ _ hparen _ _ _ _ [] (getProp_setProp_same _ _ _),
    setProp_setProp_same, setProp_of_not_mem _ _ _ hnew]

theorem featureParams_scalars (tokens : List String) (sv : Server)
    (h : ∀ t ∈ tokens, paramName t ≠ "__proto__" ∧
      (paramValue t = "" ∨ (',' ∉ (paramValue t).data ∧ paramName t ≠ "PREFIX"))) :
    ∃ sv1, featureParams sv tokens = .ok sv1 := by
  induction tokens generalizing sv with
  | nil => exact ⟨sv, rfl⟩
  | cons t rest ih =>
    obtain ⟨hp, hv⟩ := h t (List.mem_cons_self _ _)
    have hrest := fun x hx => h x (List.mem_cons_of_mem _ hx)
    unfold featureParams
    rw [featureParam_eq]
    by_cases he : paramValue t = ""
    · rw [he, featureBody_empty sv _ hp]
      exact ih _ hrest
    · rcases hv with hv | ⟨hc, hn⟩
      · exact absurd hv he
      · rw [featureBody_scalar sv _ _ hp he hc hn]
        exact ih _ hrest

/-! ## The channel store -/

theorem lookupOwn_found {β : Type} (object : List (String × β)) (key : String) (value : β)
    (h : getProp object key = some value) : lookupOwn object key = .found value := by
  simp [lookupOwn, h]

theorem lookupOwn_missing {β : Type} (object : List (String × β)) (key : String)
    (h : getProp object key = none) (hk : key ∉ inheritedKeys) :
    lookupOwn object key = .missing := by
  simp [lookupOwn, h, hk]

theorem nameLoop_spec (channel : String) (items : List String) (st : Core) (ch : Channel)
    (hch : getProp st.channels channel = some ch) (hnd : ch.names.Nodup) :
    ∃ ch', nameLoop channel st items
        = .ok { st with channels := setProp st.channels channel ch' } ∧
      ch'.users = ch.users ∧ ch'.modes = ch.modes ∧
      ch'.names.Nodup ∧ ch.names <+: ch'.names ∧
      ∀ n, n ∈ ch'.names ↔ n ∈ ch.names ∨ n ∈ items.map stripStatus := by
  induction items generalizing st ch with
  | nil =>
    refine ⟨ch, ?_, rfl, rfl, hnd, List.prefix_refl _, by simp⟩
    simp [nameLoop, setProp_of_getProp _ _ _ hch]
  | cons i rest ih =>
    unfold nameLoop
    simp only [lookupOwn_found _ _ _ hch]
    by_cases hmem : stripStatus i ∈ ch.names
    · simp only [hmem, if_true]
      obtain ⟨ch', h1, h2, h3, h4, h5, h6⟩ := ih st ch hch hnd
      refine ⟨ch', h1, h2, h3, h4, h5, fun n => ?_⟩
      rw [h6 n]
      simp only [List.map_cons, List.mem_cons]
      constructor
      · rintro (h | h)
        · exact Or.inl h
        · exact Or.inr (Or.inr h)
      · rintro (h | h | h)
        · exact Or.inl h
        · exact Or.inl (h ▸ hmem)
        · exact Or.inr h
    · simp only [hmem, if_false]
      have hnd2 : (ch.names ++ [stripStatus i]).Nodup := by
        rw [List.nodup_append]
        refine ⟨hnd, List.nodup_singleton _, ?_⟩
        intro a ha hb
        simp only [List.mem_singleton] at hb
        exact hmem (hb ▸ ha)
      obtain ⟨ch', h1, h2, h3, h4, h5, h6⟩ :=
        ih ⟨st.nickname,
            setProp st.channels channel ⟨ch.users, ch.names ++ [stripStatus i], ch.modes⟩,
            st.nextWHOChannel, st.sent, st.added, st.irc⟩
          ⟨ch.users, ch.names ++ [stripStatus i], ch.modes⟩
          (getProp_setProp_same _ _ _) hnd2
      refine ⟨ch', ?_, h2, h3, h4, ?_, fun n => ?_⟩
      · rw [h1]
        simp [setProp_setProp_same]
      · exact (List.prefix_append _ _).trans h5
      · rw [h6 n]
        simp only [List.mem_append, List.mem_singleton, List.map_cons, List.mem_cons]
        tauto

theorem stripStatus_forms (n : String) (h1 : ['@'].isPrefixOf n.data = false)
    (h2 : ['+'].isPrefixOf n.data = false) :
    stripStatus n = n ∧ stripStatus ("@" ++ n) = n ∧ stripStatus ("+" ++ n) = n ∧
      stripStatus ("@+" ++ n) = n := by
  have e1 : ("@" ++ n).data = '@' :: n.data := by simp [String.data_append]
  have e2 : ("+" ++ n).data = '+' :: n.data := by simp [String.data_append]
  have e3 : ("@+" ++ n).data = '@' :: '+' :: n.data := by simp [String.data_append]
  have h3 : ['@', '+'].isPrefixOf n.data = false := by
    cases hn : n.data with
    | nil => rfl
    | cons c cs =>
      rw [hn] at h1
      simp only [List.isPrefixOf, Bool.and_true, beq_eq_false_iff_ne, ne_eq] at h1
      simp [List.isPrefixOf, h1]
  have h4 : ['+'].isPrefixOf n.data = false := h2
  refine ⟨?_, ?_, ?_, ?_⟩
  · simp [stripStatus, h1, h2, h3]
  · unfold stripStatus
    rw [e1]
    have t1 : ['@', '+'].isPrefixOf ('@' :: n.data) = false := by
      show ('@' == '@' && ['+'].isPrefixOf n.data) = false
      rw [h4]
      rfl
    have t2 : ['@'].isPrefixOf ('@' :: n.data) = true := by simp [List.isPrefixOf]
    rw [t1, t2]
    rfl
  · unfold stripStatus
    rw [e2]
    simp [List.isPrefixOf]
  · unfold stripStatus
    rw [e3]
    simp [List.isPrefixOf]

theorem runTail_seenOrder (previous : SeenEntry) (rest : List SeenEntry) :
    runTail seenOrder false previous rest = rest.length := by
  induction rest generalizing previous with
  | nil => rfl
  | cons current rest ih =>
    have h : ¬ seenOrder current previous < 0 := by
      unfold seenOrder
      split
      · split <;> decide
      · decide
    simp only [runTail, Bool.false_eq_true, if_false, if_neg h, ih, List.length_cons]
    omega

theorem sort_seenOrder (array : List SeenEntry) (h : array.length < 64) :
    sort seenOrder array = some array := by
  unfold sort
  rw [if_neg (by omega)]
  match array with
  | [] => rfl
  | [_] => rfl
  | first :: second :: rest =>
    have hd : ¬ seenOrder second first < 0 := by
      unfold seenOrder
      split
      · split <;> decide
      · decide
    simp only [decide_eq_false hd, runTail_seenOrder, Bool.false_eq_true, if_false]
    have e : 2 + rest.length = (first :: second :: rest).length := by
      simp only [List.length_cons]; omega
    rw [e, List.take_length, List.drop_length]
    rfl

theorem spliced_arguments (l : List String) :
    (l.take 3 ++ l.drop 4).get? 0 = l.get? 0 ∧ (l.take 3 ++ l.drop 4).get? 3 = l.get? 4 := by
  rcases l with _ | ⟨a, _ | ⟨b, _ | ⟨c, _ | ⟨d, rest⟩⟩⟩⟩ <;> simp

theorem on_whospcrpl_files (st : Core) (reply : IrcEvent)
    (hnick : reply.arguments.get? 3 ≠ some "ChanServ") :
    ∃ e : AddEntry, on_whospcrpl st reply = .ok { st with added := st.added ++ [e] } ∧
      e.nick = reply.arguments.get? 3 ∧
      (truthy st.nextWHOChannel = true → e.channel = st.nextWHOChannel) ∧
      (truthy st.nextWHOChannel = false → e.channel = reply.arguments.get? 0) ∧
      (reply.arguments.get? 4 = some "0" → e.account = Field.null) := by
  unfold on_whospcrpl
  simp only [if_pos hnick]
  refine ⟨_, rfl, rfl, ?_, ?_, ?_⟩
  · intro ht
    simp only [ht, if_true]
    split
    · rfl
    · rename_i h
      exact not_not.mp h
  · intro hf
    simp only [hf, Bool.false_eq_true, if_false]
    exact (spliced_arguments _).1
  · intro h0
    have := (spliced_arguments reply.arguments).2
    simp only [this, h0, ne_eq, not_true_eq_false, if_false]

theorem handleAll_whospcrpl (next : String) (hne : next ≠ "") :
    ∀ (replies : List IrcEvent) (st : Core), st.nextWHOChannel = some next →
      (∀ r ∈ replies, r.arguments.get? 3 ≠ some "ChanServ") →
      ∃ entries : List AddEntry,
        handleAll on_whospcrpl st replies = .ok { st with added := st.added ++ entries } ∧
        entries.length = replies.length ∧
        ∀ i e r, entries.get? i = some e → replies.get? i = some r →
          e.channel = some next ∧ e.nick = r.arguments.get? 3 ∧
          (r.arguments.get? 4 = some "0" → e.account = Field.null) := by
  intro replies
  induction replies with
  | nil =>
    intro st _ _
    exact ⟨[], by simp [handleAll], rfl, by simp⟩
  | cons r rest ih =>
    intro st hst hall
    obtain ⟨e, h1, h2, h3, _, h5⟩ := on_whospcrpl_files st r (hall r (List.mem_cons_self _ _))
    have ht : truthy st.nextWHOChannel = true := by
      rw [hst]
      simpa [truthy] using hne
    obtain ⟨entries, k1, k2, k3⟩ := ih { st with added := st.added ++ [e] } hst
      (fun r' hr' => hall r' (List.mem_cons_of_mem _ hr'))
    refine ⟨e :: entries, ?_, by simp [k2], ?_⟩
    · simp only [handleAll, h1, Step.andThen, k1, List.append_assoc, List.singleton_append]
    · intro i e' r' he hr
      cases i with
      | zero =>
        simp only [List.get?_cons_zero, Option.some.injEq] at he hr
        subst he hr
        exact ⟨(h3 ht).trans hst, h2, h5⟩
      | succ j =>
        simp only [List.get?_cons_succ] at he hr
        exact k3 j e' r' he hr

theorem nameLoop_next (channel : String) :
    ∀ (users : List String) (st st' : Core), (nameLoop channel st users).core? = some st' →
      st'.nextWHOChannel = st.nextWHOChannel := by
  intro users
  induction users with
  | nil =>
    intro st st' h
    simp only [nameLoop, Step.core?, Option.some.injEq] at h
    rw [← h]
  | cons i rest ih =>
    intro st st' h
    unfold nameLoop at h
    cases hl : lookupOwn st.channels channel with
    | inherited => simp [hl, Step.core?] at h
    | missing =>
      simp only [hl, Step.core?, Option.some.injEq] at h
      rw [← h]
    | found ch =>
      simp only [hl] at h
      by_cases hm : stripStatus i ∈ ch.names
      · rw [if_pos hm] at h
        exact ih _ st' h
      · rw [if_neg hm] at h
        have k := ih _ st' h
        exact k

theorem on_name_next (st st' : Core) (event : IrcEvent)
    (h : (on_name st event).core? = some st') : st'.nextWHOChannel = st.nextWHOChannel := by
  unfold on_name at h
  cases ha : event.arguments.get? 2 with
  | none =>
    simp only [ha, Step.core?, Option.some.injEq] at h
    rw [← h]
  | some list =>
    simp only [ha] at h
    exact nameLoop_next _ _ st st' h

theorem update_user_modes_threw (st : Core) (event : IrcEvent) (mode : String) :
    _update_user_modes st event mode = .threw st := rfl

theorem update_seen_db_next (strip_formatting : String → String) (now : Int) (st st' : Core)
    (event : IrcEvent) (nick str_args : String)
    (h : (_update_seen_db strip_formatting now st event nick str_args).core? = some st') :
    st'.nextWHOChannel = st.nextWHOChannel := by
  unfold _update_seen_db at h
  cases hl : lookupOwn st.channels event.target with
  | inherited => simp [hl, Step.core?] at h
  | missing =>
    simp only [hl, Step.core?, Option.some.injEq] at h
    rw [← h]
  | found ch =>
    simp only [hl] at h
    cases hu : lookupOwn ch.users nick with
    | inherited => simp [hu, Step.core?] at h
    | missing =>
      simp only [hu, Step.core?, Option.some.injEq] at h
      rw [← h]
      rfl
    | found udb =>
      simp only [hu] at h
      split at h
      · simp [Step.core?] at h
      · simp only [Step.core?, Option.some.injEq] at h
        rw [← h]

theorem on_join_next (st st' : Core) (event : IrcEvent)
    (h : (on_join st event).core? = some st') :
    (event.nick = st.nickname → st'.nextWHOChannel = st.nextWHOChannel) ∧
    (event.nick ≠ st.nickname → st'.nextWHOChannel = some event.target) := by
  unfold on_join at h
  by_cases hn : event.nick = st.nickname
  · simp only [hn, if_true, Step.core?, Option.some.injEq] at h
    refine ⟨fun _ => ?_, fun h' => absurd hn h'⟩
    rw [← h]
    simp only [Core.send]
    split <;> rfl
  · simp only [if_neg hn, Step.core?, Option.some.injEq] at h
    refine ⟨fun h' => absurd h' hn, fun _ => ?_⟩
    rw [← h]

theorem on_whospcrpl_next (st st' : Core) (event : IrcEvent)
    (h : (on_whospcrpl st event).core? = some st') :
    st'.nextWHOChannel = st.nextWHOChannel := by
  by_cases hn : event.arguments.get? 3 ≠ some "ChanServ"
  · obtain ⟨e, h1, -⟩ := on_whospcrpl_files st event hn
    rw [h1] at h
    simp only [Step.core?, Option.some.injEq] at h
    rw [← h]
  · unfold on_whospcrpl at h
    rw [if_neg hn] at h
    simp only [Step.core?, Option.some.injEq] at h
    rw [← h]

/-! ## Properties of the SASL negotiator -/

/-- C1: a session configured with method `external` and started by `run`
with an offered list containing `EXTERNAL` answers two consecutive
`on_saslfailed` events without throwing; the lines sent are
`AUTHENTICATE EXTERNAL`, `AUTHENTICATE EXTERNAL`, `AUTHENTICATE PLAIN`, and
afterwards the method is `plain` and the retry counter is 1. -/
theorem external_two_failures (username password : String) (offered : List String)
    (e1 e2 : Event) (h : "EXTERNAL" ∈ offered) :
    ((Sasl.constructor username password (some "external")).run (some offered)).error = none ∧
    ((((Sasl.constructor username password (some "external")).run (some offered)).session
      ).on_saslfailed e1).error = none ∧
    (((((Sasl.constructor username password (some "external")).run (some offered)).session
      ).on_saslfailed e1).session.on_saslfailed e2) =
      { session :=
          { username := username, password := password, method := "plain", retries := 1,
            sent := ["AUTHENTICATE EXTERNAL", "AUTHENTICATE EXTERNAL", "AUTHENTICATE PLAIN"] },
        error := none } := by
  have hu : toUpperCase "external" = "EXTERNAL" := by decide
  simp [Sasl.constructor, Sasl.run, Sasl.on_saslfailed, Sasl.send, hu, h]

/-- Witness for C1: offered `['EXTERNAL', 'PLAIN']`. -/
theorem external_two_failures_witness :
    "EXTERNAL" ∈ ["EXTERNAL", "PLAIN"] ∧
    (((((Sasl.constructor "nick" "secret" (some "external")).run
      (some ["EXTERNAL", "PLAIN"])).session).on_saslfailed ⟨[]⟩).session.on_saslfailed ⟨[]⟩) =
      { session :=
          { username := "nick", password := "secret", method := "plain", retries := 1,
            sent := ["AUTHENTICATE EXTERNAL", "AUTHENTICATE EXTERNAL", "AUTHENTICATE PLAIN"] },
        error := none } :=
  ⟨by decide,
    (external_two_failures "nick" "secret" ["EXTERNAL", "PLAIN"] ⟨[]⟩ ⟨[]⟩ (by decide)).2.2⟩

/-- C2: a session configured with method `plain` and started by `run` with
an offered list containing `PLAIN`: the first `on_saslfailed` does not throw,
the second throws `SASL authentication failed!`, and the lines sent are
`AUTHENTICATE PLAIN`, `AUTHENTICATE PLAIN`, `AUTHENTICATE *`. -/
theorem plain_two_failures (username password : String) (offered : List String)
    (e1 e2 : Event) (h : "PLAIN" ∈ offered) :
    ((Sasl.constructor username password (some "plain")).run (some offered)).error = none ∧
    ((((Sasl.constructor username password (some "plain")).run (some offered)).session
      ).on_saslfailed e1).error = none ∧
    (((((Sasl.constructor username password (some "plain")).run (some offered)).session
      ).on_saslfailed e1).session.on_saslfailed e2).error
      = some "SASL authentication failed!" ∧
    (((((Sasl.constructor username password (some "plain")).run (some offered)).session
      ).on_saslfailed e1).session.on_saslfailed e2).session.sent
      = ["AUTHENTICATE PLAIN", "AUTHENTICATE PLAIN", "AUTHENTICATE *"] := by
  have hu : toUpperCase "plain" = "PLAIN" := by decide
  simp [Sasl.constructor, Sasl.run, Sasl.on_saslfailed, Sasl.send, hu, h]

/-- Witness for C2: offered `['PLAIN']`. -/
theorem plain_two_failures_witness :
    "PLAIN" ∈ ["PLAIN"] ∧
    (((((Sasl.constructor "nick" "secret" (some "plain")).run (some ["PLAIN"])).session
      ).on_saslfailed ⟨[]⟩).session.on_saslfailed ⟨[]⟩).error
      = some "SASL authentication failed!" :=
  ⟨by decide, (plain_two_failures "nick" "secret" ["PLAIN"] ⟨[]⟩ ⟨[]⟩ (by decide)).2.2.1⟩

/-- C3: `run` throws `Not supported by server` exactly when the list of
mechanisms (the argument, or `['EXTERNAL', 'PLAIN']` when it is missing) does
not contain the upper-cased method, and in that case it sends nothing. -/
theorem run_not_supported (s : Sasl) (args : Option (List String)) :
    ((s.run args).error = some "Not supported by server" ↔
      toUpperCase s.method ∉ args.getD ["EXTERNAL", "PLAIN"]) ∧
    (toUpperCase s.method ∉ args.getD ["EXTERNAL", "PLAIN"] →
      (s.run args).session.sent = s.sent) := by
  unfold Sasl.run
  by_cases h : toUpperCase s.method ∈ args.getD ["EXTERNAL", "PLAIN"]
  · by_cases h2 : s.method ∈ ["plain", "external"] <;> simp [h, h2]
  · simp [h]

/-- Witness for C3: offered `['PLAIN']`, configured `external`. -/
theorem run_not_supported_witness :
    toUpperCase (Sasl.constructor "nick" "secret" (some "external")).method
      ∉ (some ["PLAIN"]).getD ["EXTERNAL", "PLAIN"] ∧
    ((Sasl.constructor "nick" "secret" (some "external")).run (some ["PLAIN"])).error
      = some "Not supported by server" ∧
    ((Sasl.constructor "nick" "secret" (some "external")).run (some ["PLAIN"])).session.sent
      = [] :=
  ⟨by decide,
    (run_not_supported (Sasl.constructor "nick" "secret" (some "external"))
      (some ["PLAIN"])).1.2 (by decide),
    (run_not_supported (Sasl.constructor "nick" "secret" (some "external"))
      (some ["PLAIN"])).2 (by decide)⟩

/-- C4, as the claim states it, fails: the method `PLAIN` equals `plain`
case-insensitively and `PLAIN` is offered, yet `run` throws
`Not implemented yet` and sends nothing. -/
theorem run_uppercase_method_not_implemented :
    toUpperCase (Sasl.constructor "nick" "secret" (some "PLAIN")).method ∈ ["PLAIN"] ∧
    ((Sasl.constructor "nick" "secret" (some "PLAIN")).run (some ["PLAIN"])).error
      = some "Not implemented yet" ∧
    ((Sasl.constructor "nick" "secret" (some "PLAIN")).run (some ["PLAIN"])).session.sent
      = [] := by
  decide

/-- C4, amended: when the method is exactly `plain` or `external` and the
mechanisms contain its upper-cased name, `run` does not throw and sends
exactly one line, `AUTHENTICATE` followed by the upper-cased method; when
the upper-cased name is offered but the method is spelled otherwise, `run`
throws `Not implemented yet` and sends nothing. -/
theorem run_supported (s : Sasl) (args : Option (List String))
    (h : toUpperCase s.method ∈ args.getD ["EXTERNAL", "PLAIN"]) :
    (s.method = "plain" ∨ s.method = "external" →
      (s.run args).error = none ∧
      (s.run args).session.sent = s.sent ++ ["AUTHENTICATE " ++ toUpperCase s.method]) ∧
    (¬ (s.method = "plain" ∨ s.method = "external") →
      (s.run args).error = some "Not implemented yet" ∧
      (s.run args).session.sent = s.sent) := by
  unfold Sasl.run
  constructor
  · intro hm
    have hm2 : s.method ∈ ["plain", "external"] := by simpa using hm
    simp [h, hm2, Sasl.send]
  · intro hm
    have hm2 : s.method ∉ ["plain", "external"] := by simpa using hm
    simp [h, hm2]

/-- Witness for C4: configured `external`, offered `['EXTERNAL', 'PLAIN']`. -/
theorem run_supported_witness :
    toUpperCase (Sasl.constructor "nick" "secret" (some "external")).method
      ∈ (some ["EXTERNAL", "PLAIN"]).getD ["EXTERNAL", "PLAIN"] ∧
    ((Sasl.constructor "nick" "secret" (some "external")).run
      (some ["EXTERNAL", "PLAIN"])).session.sent = ["AUTHENTICATE EXTERNAL"] :=
  ⟨by decide,
    ((run_supported (Sasl.constructor "nick" "secret" (some "external"))
      (some ["EXTERNAL", "PLAIN"]) (by decide)).1 (by decide)).2⟩

/-- C5: on a continuation event (first argument `+`) `on_authenticate` does
not throw and sends exactly one line: for the method `plain` it is
`AUTHENTICATE ` followed by the base64 encoding of the UTF-8 bytes of
username, NUL, username, NUL, password; for `external` it is
`AUTHENTICATE +`. -/
theorem on_authenticate_continuation (s : Sasl) (event : Event)
    (h : event.arguments.head? = some "+") :
    (s.method = "plain" →
      s.on_authenticate event =
        { session := { s with sent := s.sent ++ ["AUTHENTICATE " ++
            toBase64 (bufferFrom
              (s.username ++ "\x00" ++ s.username ++ "\x00" ++ s.password))] },
          error := none }) ∧
    (s.method = "external" →
      s.on_authenticate event =
        { session := { s with sent := s.sent ++ ["AUTHENTICATE +"] }, error := none }) := by
  unfold Sasl.on_authenticate
  constructor
  · intro hm
    simp [h, hm, Sasl.send]
  · intro hm
    simp [h, hm, Sasl.send]

/-- Witness for C5: the user `jilles` with the password `sesame`. -/
theorem on_authenticate_continuation_witness :
    (⟨["+"]⟩ : Event).arguments.head? = some "+" ∧
    ((Sasl.constructor "jilles" "sesame" (some "plain")).on_authenticate ⟨["+"]⟩).session.sent
      = ["AUTHENTICATE amlsbGVzAGppbGxlcwBzZXNhbWU="] ∧
    ((Sasl.constructor "jilles" "sesame" (some "external")).on_authenticate ⟨["+"]⟩).session.sent
      = ["AUTHENTICATE +"] :=
  ⟨by decide,
    by rw [(on_authenticate_continuation (Sasl.constructor "jilles" "sesame" (some "plain"))
      ⟨["+"]⟩ (by decide)).1 (by decide)]; decide,
    by rw [(on_authenticate_continuation (Sasl.constructor "jilles" "sesame" (some "external"))
      ⟨["+"]⟩ (by decide)).2 (by decide)]; decide⟩

/-- C6, as the claim states it, fails: a `plain` session started by `run`
that receives five `on_saslfailed` events has sent six `AUTHENTICATE`
lines. -/
theorem authenticate_lines_unbounded :
    (((((Sasl.constructor "nick" "secret" (some "plain")).run none).session.failuresAll
      (List.replicate 5 ⟨[]⟩)).sent.filter isAuthenticate).length = 6) ∧
    ((Sasl.constructor "nick" "secret" (some "plain")).run none).error = none := by
  decide

/-- C6, amended: for every session made by the constructor and started by
`run` without an error, and every sequence of `on_saslfailed` events handled
up to and including the first call that throws the terminal error, at most 4
`AUTHENTICATE` lines have been sent by `run` and `on_saslfailed` together. -/
theorem authenticate_lines_bounded (username password : String) (method : Option String)
    (args : Option (List String)) (events : List Event)
    (h : ((Sasl.constructor username password method).run args).error = none) :
    (((((Sasl.constructor username password method).run args).session.failures
      events).session.sent.filter isAuthenticate).length ≤ 4) := by
  have hp : toUpperCase "plain" = "PLAIN" := by decide
  have he : toUpperCase "external" = "EXTERNAL" := by decide
  generalize hs : Sasl.constructor username password method = s at h
  have hr : s.retries = 0 ∧ s.sent = [] := by
    subst hs; simp [Sasl.constructor]
  obtain ⟨u, p, m, r, snt⟩ := s
  obtain ⟨hr1, hr2⟩ := hr
  simp only at hr1 hr2
  subst hr1 hr2
  unfold Sasl.run at h ⊢
  by_cases h1 : toUpperCase m ∈ args.getD ["EXTERNAL", "PLAIN"]
  · by_cases h2 : m ∈ ["plain", "external"]
    · simp only [h1, h2, if_true]
      simp only [List.mem_cons, List.mem_singleton, List.not_mem_nil, or_false] at h2
      rcases h2 with rfl | rfl
      · rcases events with _ | ⟨e1, _ | ⟨e2, rest⟩⟩ <;>
          simp [Sasl.failures, Sasl.on_saslfailed, Sasl.send, hp] <;> decide
      · rcases events with _ | ⟨e1, _ | ⟨e2, _ | ⟨e3, rest⟩⟩⟩ <;>
          simp [Sasl.failures, Sasl.on_saslfailed, Sasl.send, he] <;> decide
    · simp [h1, h2] at h
  · simp [h1] at h

/-- Witness for C6: an `external` session and four failure events. -/
theorem authenticate_lines_bounded_witness :
    ((Sasl.constructor "nick" "secret" (some "external")).run none).error = none ∧
    (((((Sasl.constructor "nick" "secret" (some "external")).run none).session.failures
      (List.replicate 4 ⟨[]⟩)).session.sent.filter isAuthenticate).length ≤ 4) :=
  ⟨by decide,
    authenticate_lines_bounded "nick" "secret" (some "external") none
      (List.replicate 4 ⟨[]⟩) (by decide)⟩

/-! ## Properties of the capability registry -/

/-- C7, as the claim states it, fails.  With a repeated mode letter,
`PREFIX=(oo)@+`, the later write wins: `ISUPPORT.PREFIX['o']` is `'+'`, not
the symbol `'@'` of position 1.  And when the registry holds a string under
`PREFIX` (left by a `PREFIX=` token), the token `PREFIX=(ov)@+` raises a
`TypeError` and records no mode letter. -/
theorem prefix_token_not_recorded :
    on_featurelist ⟨[], none⟩ ⟨["PREFIX=(oo)@+", "are supported by this server"]⟩
      = .ok ⟨[("PREFIX", .obj [("o", some "+")])],
          some [("@", ⟨"o", "op"⟩), ("+", ⟨"o", "op"⟩)]⟩ ∧
    getProp [("o", some "+")] "o" ≠ some (some "@") ∧
    on_featurelist ⟨[("PREFIX", .str "")], none⟩
        ⟨["PREFIX=(ov)@+", "are supported by this server"]⟩
      = .threw ⟨[("PREFIX", .str "")], some [("@", ⟨"o", "op"⟩)]⟩ := by
  decide

/-- C7, amended: let the mode letters be pairwise distinct and contain `o`,
the symbols be pairwise distinct and as many as the letters, no letter or
symbol be `)` or `,`, no letter a line terminator, every symbol a single
UTF-16 code unit, and the registry hold nothing or a sub-key map under
`PREFIX`.  Then `PREFIX=(m1…mn)s1…sn` is handled without raising, the
pattern `^(.*o)(.*h)?(.*)$` splits the letters into three groups,
`ISUPPORT.PREFIX[m_i]` is `s_i` at every position, and `server.prefixes`
has exactly the keys `s_1 … s_n` with `prefixes[s_i] = {mode: m_i, level}`,
the level being `op`, `halfop` or `voice` by the group holding `m_i`.  In
particular `PREFIX=(ohv)@%+` on an empty registry gives
`ISUPPORT.PREFIX = {o: '@', h: '%', v: '+'}` and the three entries of
`server.prefixes` of the claim. -/
theorem prefix_token_recorded (sv : Server) (modes symbols : List Char) (trailing : String)
    (hlen : modes.length = symbols.length) (ho : 'o' ∈ modes)
    (hm : modes.Nodup) (hs : symbols.Nodup)
    (hmc : ∀ c ∈ modes, c ≠ ')' ∧ c ≠ ',' ∧ isLineTerminator c = false)
    (hsc : ∀ c ∈ symbols, c ≠ ')' ∧ c ≠ ',' ∧ isBMP c = true)
    (hsv : ∀ v, getProp sv.ISUPPORT "PREFIX" = some v → ∃ props, v = .obj props) :
    (∃ g1 g2 g3 props table sv',
      matchLevels modes = some (g1, g2, g3) ∧ g1 ++ g2.getD [] ++ g3 = modes ∧
      on_featurelist sv
        ⟨["PREFIX=(" ++ String.mk modes ++ ")" ++ String.mk symbols, trailing]⟩ = .ok sv' ∧
      getProp sv'.ISUPPORT "PREFIX" = some (.obj props) ∧
      sv'.prefixes = some table ∧
      keys table = symbols.map String.singleton ∧
      ∀ i m s, modes.get? i = some m → symbols.get? i = some s →
        getProp props (String.singleton m) = some (some (String.singleton s)) ∧
        getProp table (String.singleton s)
          = some ⟨String.singleton m, levelName g1 g2 m⟩) ∧
    on_featurelist ⟨[], none⟩ ⟨["PREFIX=(ohv)@%+", "are supported by this server"]⟩
      = .ok ⟨[("PREFIX", .obj [("o", some "@"), ("h", some "%"), ("v", some "+")])],
          some [("@", ⟨"o", "op"⟩), ("%", ⟨"h", "halfop"⟩), ("+", ⟨"v", "voice"⟩)]⟩ := by
  refine ⟨?_, by decide⟩
  obtain ⟨g1, g2, g3, hg, hparts⟩ := matchLevels_some modes ho (fun c hc => (hmc c hc).2.2)
  have hm1 : ')' ∉ modes := fun h => (hmc _ h).1 rfl
  have hs1 : ')' ∉ symbols := fun h => (hsc _ h).1 rfl
  have hm2 : ',' ∉ modes := fun h => (hmc _ h).2.1 rfl
  have hs2 : ',' ∉ symbols := fun h => (hsc _ h).2.1 rfl
  have htok : "PREFIX=(" ++ String.mk modes ++ ")" ++ String.mk symbols
      = String.mk ("PREFIX".data ++ '=' :: ('(' :: modes ++ ')' :: symbols)) := by
    apply String.ext
    simp [String.data_append]
  have hname := paramName_of_append "PREFIX".data ('(' :: modes ++ ')' :: symbols) (by decide)
  have hv1 : String.mk ('(' :: modes ++ ')' :: symbols) ≠ "" := by
    intro h
    have := congrArg String.data h
    simp at this
  have hv2 : ',' ∉ (String.mk ('(' :: modes ++ ')' :: symbols)).data := by
    simp [hm2, hs2]
  -- the registry entry once the handler has made sure it exists
  obtain ⟨isupport0, props0, hsv0, hobj0⟩ :
      ∃ isupport0 props0,
        (if "PREFIX" ∈ keys sv.ISUPPORT then sv
          else ⟨setProp sv.ISUPPORT "PREFIX" (.obj []), sv.prefixes⟩ : Server)
          = ⟨isupport0, sv.prefixes⟩ ∧
        getProp isupport0 "PREFIX" = some (.obj props0) := by
    by_cases hk : "PREFIX" ∈ keys sv.ISUPPORT
    · obtain ⟨v, hv⟩ := (mem_keys_iff _ _).mp hk
      obtain ⟨props, rfl⟩ := hsv v hv
      exact ⟨sv.ISUPPORT, props, by simp [hk], hv⟩
    · exact ⟨setProp sv.ISUPPORT "PREFIX" (.obj []), [], by simp [hk],
        getProp_setProp_same _ _ _⟩
  have hfound : ∀ m ∈ modes, findLevel m (levelsOf g1 g2 g3) = some (some (levelName g1 g2 m)) :=
    fun m hmem => findLevel_levelsOf g1 g2 g3 m (by rw [hparts]; exact hmem)
  have hrun := prefixModes_ok "PREFIX" (levelsOf g1 g2 g3) symbols modes
    (fun c hc => (hsc c hc).2.2) (fun m hmem => by rw [hfound m hmem]; simp)
    isupport0 0 props0 [] hobj0
  have hkeys : keys (tableWrites (levelsOf g1 g2 g3) symbols modes 0)
      = symbols.map String.singleton := by
    rw [keys_tableWrites _ _ _ _ (fun m hmem => ⟨_, hfound m hmem⟩) (by omega)]
    simp [hlen]
  have hnd : (keys (tableWrites (levelsOf g1 g2 g3) symbols modes 0)).Nodup := by
    rw [hkeys]
    exact hs.map singleton_injective
  have htable : setAll [] (tableWrites (levelsOf g1 g2 g3) symbols modes 0)
      = tableWrites (levelsOf g1 g2 g3) symbols modes 0 := by
    rw [setAll_of_nodup _ _ (by simpa using hnd)]
    simp
  refine ⟨g1, g2, g3, setAll props0 (prefixWrites symbols modes 0),
    tableWrites (levelsOf g1 g2 g3) symbols modes 0,
    ⟨setProp isupport0 "PREFIX" (.obj (setAll props0 (prefixWrites symbols modes 0))),
      some (tableWrites (levelsOf g1 g2 g3) symbols modes 0)⟩,
    hg, hparts, ?_, ?_, rfl, hkeys, ?_⟩
  · rw [on_featurelist_single, htok, hname.1, hname.2, featureBody_prefixBranch _ _ hv1 hv2, hsv0,
      prefixBranch_eq _ _ _ _ _ _ _ hg hm1 hs1, hrun, htable]
  · exact getProp_setProp_same _ _ _
  · intro i m s hi hsi
    constructor
    · have := mem_prefixWrites symbols modes 0 i m hi
      simp only [Nat.zero_add, hsi, Option.map_some'] at this
      exact getProp_setAll_of_nodup _ _ _ _
        (by rw [keys_prefixWrites]; exact hm.map singleton_injective) this
    · have := mem_tableWrites (levelsOf g1 g2 g3) symbols modes 0 i m _ hi
        (hfound m (List.get?_mem hi))
      simp only [Nat.zero_add, hsi, Option.map_some', Option.getD_some] at this
      rw [← htable]
      exact getProp_setAll_of_nodup _ _ _ _ hnd this

/-- Witness for C7: the letters `ohv` with the symbols `@%+` on an empty
registry. -/
theorem prefix_token_recorded_witness :
    ("ohv".data.length = "@%+".data.length ∧ 'o' ∈ "ohv".data ∧ "ohv".data.Nodup ∧
      "@%+".data.Nodup) ∧
    ∃ g1 g2 g3 props table sv',
      matchLevels "ohv".data = some (g1, g2, g3) ∧ g1 ++ g2.getD [] ++ g3 = "ohv".data ∧
      on_featurelist ⟨[], none⟩
        ⟨["PREFIX=(" ++ String.mk "ohv".data ++ ")" ++ String.mk "@%+".data,
          "are supported by this server"]⟩ = .ok sv' ∧
      getProp sv'.ISUPPORT "PREFIX" = some (.obj props) ∧
      sv'.prefixes = some table ∧
      keys table = "@%+".data.map String.singleton ∧
      ∀ i m s, "ohv".data.get? i = some m → "@%+".data.get? i = some s →
        getProp props (String.singleton m) = some (some (String.singleton s)) ∧
        getProp table (String.singleton s)
          = some ⟨String.singleton m, levelName g1 g2 m⟩ :=
  ⟨by decide,
    (prefix_token_recorded ⟨[], none⟩ "ohv".data "@%+".data "are supported by this server"
      (by decide) (by decide) (by decide) (by decide) (by decide) (by decide)
      (by intro v h; simp [getProp] at h)).1⟩

/-- C8, as the claim states it, fails: the list-valued token `CHANTYPES=#,&`
is appended again by the second handling, which leaves
`['#', '&', '#', '&']`.  And without any list-valued token, when a name
occurs twice (`TARGMAX` as a sub-key token and then as a scalar), the first
handling completes while the second raises a `TypeError` after it has set
`USERLEN` back to `10`. -/
theorem featurelist_twice_differs :
    on_featurelist ⟨[], none⟩ ⟨["CHANTYPES=#,&", "are supported by this server"]⟩
      = .ok ⟨[("CHANTYPES", .arr ["#", "&"])], none⟩ ∧
    (on_featurelist ⟨[], none⟩ ⟨["CHANTYPES=#,&", "are supported by this server"]⟩).thenEvent
        ⟨["CHANTYPES=#,&", "are supported by this server"]⟩
      = .ok ⟨[("CHANTYPES", .arr ["#", "&", "#", "&"])], none⟩ ∧
    on_featurelist ⟨[], none⟩
        ⟨["USERLEN=10", "TARGMAX=a:1),b", "TARGMAX=x", "USERLEN=12", "are supported"]⟩
      = .ok ⟨[("USERLEN", .str "12"), ("TARGMAX", .str "x")], none⟩ ∧
    (on_featurelist ⟨[], none⟩
        ⟨["USERLEN=10", "TARGMAX=a:1),b", "TARGMAX=x", "USERLEN=12", "are supported"]⟩).thenEvent
        ⟨["USERLEN=10", "TARGMAX=a:1),b", "TARGMAX=x", "USERLEN=12", "are supported"]⟩
      = .threw ⟨[("USERLEN", .str "10"), ("TARGMAX", .str "x")], none⟩ := by
  decide

/-- C8, amended: when no capability name occurs twice among the tokens and
no token is list-valued (a value that holds `,` but no `)`), handling the
same event a second time ends as the first handling did, with the same
registry, `ISUPPORT` and `server.prefixes`: completed if the first
completed, and raised, in the same state, if the first raised. -/
theorem featurelist_twice (sv : Server) (tokens : List String) (trailing : String)
    (hlist : ∀ t ∈ tokens, ',' ∈ (paramValue t).data → ')' ∈ (paramValue t).data)
    (hnames : (tokens.map paramName).Nodup) :
    (∀ sv1, on_featurelist sv ⟨tokens ++ [trailing]⟩ = .ok sv1 →
      on_featurelist sv1 ⟨tokens ++ [trailing]⟩ = .ok sv1) ∧
    (∀ sv1, on_featurelist sv ⟨tokens ++ [trailing]⟩ = .threw sv1 →
      on_featurelist sv1 ⟨tokens ++ [trailing]⟩ = .threw sv1) := by
  simp only [on_featurelist, List.dropLast_concat]
  exact ⟨fun sv1 h1 => featureParams_of_absorbed tokens sv1
      (featureParams_absorbed tokens hlist hnames sv sv1 h1),
    fun sv1 h1 => featureParams_threw_twice tokens hlist hnames sv sv1 h1⟩

/-- Witness for C8: a scalar, a `PREFIX`, a presence and a sub-key token. -/
theorem featurelist_twice_witness :
    (∀ t ∈ ["NETWORK=Libera", "PREFIX=(ov)@+", "EXCEPTS", "TARGMAX=a:1),b"],
      ',' ∈ (paramValue t).data → ')' ∈ (paramValue t).data) ∧
    (["NETWORK=Libera", "PREFIX=(ov)@+", "EXCEPTS", "TARGMAX=a:1),b"].map paramName).Nodup ∧
    on_featurelist ⟨[], none⟩
        ⟨["NETWORK=Libera", "PREFIX=(ov)@+", "EXCEPTS", "TARGMAX=a:1),b"] ++ ["are supported"]⟩
      = .ok ⟨[("NETWORK", .str "Libera"), ("PREFIX", .obj [("o", some "@"), ("v", some "+")]),
            ("EXCEPTS", .str ""), ("TARGMAX", .obj [("a", some "1)"), ("undefined", none)])],
          some [("@", ⟨"o", "op"⟩), ("+", ⟨"v", "voice"⟩)]⟩ ∧
    on_featurelist
        ⟨[("NETWORK", .str "Libera"), ("PREFIX", .obj [("o", some "@"), ("v", some "+")]),
            ("EXCEPTS", .str ""), ("TARGMAX", .obj [("a", some "1)"), ("undefined", none)])],
          some [("@", ⟨"o", "op"⟩), ("+", ⟨"v", "voice"⟩)]⟩
        ⟨["NETWORK=Libera", "PREFIX=(ov)@+", "EXCEPTS", "TARGMAX=a:1),b"] ++ ["are supported"]⟩
      = .ok ⟨[("NETWORK", .str "Libera"), ("PREFIX", .obj [("o", some "@"), ("v", some "+")]),
            ("EXCEPTS", .str ""), ("TARGMAX", .obj [("a", some "1)"), ("undefined", none)])],
          some [("@", ⟨"o", "op"⟩), ("+", ⟨"v", "voice"⟩)]⟩ :=
  ⟨by decide, by decide, by decide,
    (featurelist_twice ⟨[], none⟩
      ["NETWORK=Libera", "PREFIX=(ov)@+", "EXCEPTS", "TARGMAX=a:1),b"] "are supported"
      (by decide) (by decide)).1 _ (by decide)⟩

/-- C9, as the claim states it, fails: the tokens `PREFIX=(v)+` and
`NETWORK=x` name different capabilities.  Handled as two events, the first
raises a `TypeError` (no `o` among the letters) and the second still records
`NETWORK`; handled as one event, the `TypeError` ends the loop before
`NETWORK=x` is reached, and `ISUPPORT` has no `NETWORK` entry. -/
theorem disjoint_events_not_merged :
    (∀ n ∈ ["PREFIX=(v)+"].map paramName, n ∉ ["NETWORK=x"].map paramName) ∧
    (on_featurelist ⟨[], none⟩ ⟨["PREFIX=(v)+", "are supported by this server"]⟩).thenEvent
        ⟨["NETWORK=x", "are supported by this server"]⟩
      = .ok ⟨[("PREFIX", .obj []), ("NETWORK", .str "x")], some []⟩ ∧
    on_featurelist ⟨[], none⟩ ⟨["PREFIX=(v)+", "NETWORK=x", "are supported by this server"]⟩
      = .threw ⟨[("PREFIX", .obj [])], some []⟩ := by
  decide

/-- C9, amended: for two events whose tokens name disjoint sets of
capabilities, handling the second leaves every `ISUPPORT` entry named by a
token of the first as the first left it, whether or not a handler raises;
and when the first event is handled without raising, handling the first and
then the second ends as handling one event that carries both token lists,
with the same registry. -/
theorem disjoint_events_merge (sv : Server) (tokens1 tokens2 : List String)
    (t1 t2 t3 : String)
    (hd : ∀ n ∈ tokens1.map paramName, n ∉ tokens2.map paramName) :
    (∀ sv1 sv2, (on_featurelist sv ⟨tokens1 ++ [t1]⟩).server? = some sv1 →
      (on_featurelist sv1 ⟨tokens2 ++ [t2]⟩).server? = some sv2 →
      ∀ n ∈ tokens1.map paramName, getProp sv2.ISUPPORT n = getProp sv1.ISUPPORT n) ∧
    (∀ sv1, on_featurelist sv ⟨tokens1 ++ [t1]⟩ = .ok sv1 →
      (on_featurelist sv ⟨tokens1 ++ [t1]⟩).thenEvent ⟨tokens2 ++ [t2]⟩
        = on_featurelist sv ⟨tokens1 ++ tokens2 ++ [t3]⟩) := by
  constructor
  · intro sv1 sv2 _ h2 n hn
    simp only [on_featurelist, List.dropLast_concat] at h2
    exact (featureParams_frame tokens2 sv1 sv2 h2).1 n (hd n hn)
  · intro sv1 h1
    rw [h1]
    simp only [on_featurelist, List.dropLast_concat] at h1
    simp only [Outcome.thenEvent, Outcome.server?, on_featurelist, List.dropLast_concat,
      featureParams_append, h1, Outcome.andThen]

/-- Witness for C9: `NETWORK=x` in one event and `CHANTYPES=#,&` in the
next. -/
theorem disjoint_events_merge_witness :
    (∀ n ∈ ["NETWORK=x"].map paramName, n ∉ ["CHANTYPES=#,&"].map paramName) ∧
    (on_featurelist ⟨[], none⟩ ⟨["NETWORK=x"] ++ ["are supported"]⟩).thenEvent
        ⟨["CHANTYPES=#,&"] ++ ["are supported"]⟩
      = on_featurelist ⟨[], none⟩ ⟨["NETWORK=x"] ++ ["CHANTYPES=#,&"] ++ ["are supported"]⟩ :=
  ⟨by decide,
    (disjoint_events_merge ⟨[], none⟩ ["NETWORK=x"] ["CHANTYPES=#,&"] "are supported"
      "are supported" "are supported" (by decide)).2
      ⟨[("NETWORK", .str "x")], none⟩ (by decide)⟩

/-- C10, as the claim states it, fails: a token without a value records the
empty string, not a boolean; and a `PREFIX=` token that follows
`PREFIX=(ov)@+` replaces the sub-key map `{o: '@', v: '+'}` by the empty
string instead of leaving it unchanged. -/
theorem empty_value_overwrites :
    on_featurelist ⟨[], none⟩ ⟨["EXCEPTS", "are supported by this server"]⟩
      = .ok ⟨[("EXCEPTS", .str "")], none⟩ ∧
    on_featurelist ⟨[], none⟩ ⟨["PREFIX=(ov)@+", "are supported by this server"]⟩
      = .ok ⟨[("PREFIX", .obj [("o", some "@"), ("v", some "+")])],
          some [("@", ⟨"o", "op"⟩), ("+", ⟨"v", "voice"⟩)]⟩ ∧
    on_featurelist
        ⟨[("PREFIX", .obj [("o", some "@"), ("v", some "+")])],
          some [("@", ⟨"o", "op"⟩), ("+", ⟨"v", "voice"⟩)]⟩
        ⟨["PREFIX=", "are supported by this server"]⟩
      = .ok ⟨[("PREFIX", .str "")], some [("@", ⟨"o", "op"⟩), ("+", ⟨"v", "voice"⟩)]⟩ := by
  decide

/-- C10, amended: for every name without `=` other than `__proto__`, and
whatever the registry holds, the tokens `NAME` and `NAME=` complete without
raising and set `ISUPPORT[NAME]` to the empty string, changing nothing
else. -/
theorem empty_value_recorded (sv : Server) (name trailing : String)
    (h1 : '=' ∉ name.data) (h2 : name ≠ "__proto__") :
    on_featurelist sv ⟨[name, trailing]⟩
      = .ok { sv with ISUPPORT := setProp sv.ISUPPORT name (.str "") } ∧
    on_featurelist sv ⟨[name ++ "=", trailing]⟩
      = .ok { sv with ISUPPORT := setProp sv.ISUPPORT name (.str "") } ∧
    getProp (setProp sv.ISUPPORT name (.str "")) name = some (.str "") ∧
    ∀ other, other ≠ name →
      getProp (setProp sv.ISUPPORT name (.str "")) other = getProp sv.ISUPPORT other := by
  refine ⟨?_, ?_, getProp_setProp_same _ _ _, fun other h => getProp_setProp_of_ne _ _ h⟩
  · rw [on_featurelist_single, (paramName_of_not_mem name h1).1,
      (paramName_of_not_mem name h1).2, featureBody_empty sv name h2]
  · have h3 : name ++ "=" = String.mk (name.data ++ '=' :: []) := by
      apply String.ext
      simp [String.data_append]
    rw [on_featurelist_single, h3, (paramName_of_append name.data [] h1).1,
      (paramName_of_append name.data [] h1).2]
    exact featureBody_empty sv name h2

/-- Witness for C10: the token `EXCEPTS` on a registry that holds a sub-key
map under that name. -/
theorem empty_value_recorded_witness :
    '=' ∉ "EXCEPTS".data ∧ "EXCEPTS" ≠ "__proto__" ∧
    on_featurelist ⟨[("EXCEPTS", .obj [("k", some "v")])], none⟩ ⟨["EXCEPTS", "are supported"]⟩
      = .ok ⟨[("EXCEPTS", .str "")], none⟩ :=
  ⟨by decide, by decide,
    (empty_value_recorded ⟨[("EXCEPTS", .obj [("k", some "v")])], none⟩ "EXCEPTS"
      "are supported" (by decide) (by decide)).1⟩

/-! ## More properties of the capability registry -/

/-- C11, as the claim states it, fails for the name `__proto__`: the token
`__proto__=a,b` holds no `)` and its name is not in the registry, which is
empty, yet `on_featurelist` raises a `TypeError` and records no list.
`Object.keys` does not list `__proto__`, so the name gets `{}`, which becomes
the prototype of `ISUPPORT`; the reset to `[]` is skipped for the same reason
and `push` is called on that empty object. -/
theorem proto_list_token_raises :
    "__proto__" ∉ keys (⟨[], none⟩ : Server).ISUPPORT ∧
    ')' ∉ "a,b".data ∧
    on_featurelist ⟨[], none⟩ ⟨["__proto__=a,b", "are supported by this server"]⟩
      = .threw ⟨[], none⟩ := by
  decide

/-- C11, amended: a token `NAME=v1,v2,…,vk` with a name other than
`__proto__` and at least two items, none of which contains `)`, whose name is
not yet in the registry, is recorded as the list `[v1, v2, …, vk]` in the
order of the token; the entry is added after the entries already there, which
are kept, and the table of prefixes is kept.  The items are the pieces
between the commas, so they hold no comma; the name is what precedes the
first `=`. -/
theorem list_token_recorded (sv : Server) (name trailing : String) (items : List String)
    (hk : 2 ≤ items.length) (hname : '=' ∉ name.data) (hproto : name ≠ "__proto__")
    (hitems : ∀ v ∈ items, ',' ∉ v.data ∧ ')' ∉ v.data)
    (hnew : name ∉ keys sv.ISUPPORT) :
    on_featurelist sv
        ⟨[name ++ "=" ++ String.mk (List.intercalate [','] (items.map String.data)), trailing]⟩
      = .ok ⟨sv.ISUPPORT ++ [(name, .arr items)], sv.prefixes⟩ := by
  obtain ⟨v1, rest1, rfl⟩ : ∃ v1 rest1, items = v1 :: rest1 := by
    cases items with
    | nil => simp at hk
    | cons v r => exact ⟨v, r, rfl⟩
  obtain ⟨v2, rest2, rfl⟩ : ∃ v2 rest2, rest1 = v2 :: rest2 := by
    cases rest1 with
    | nil => simp at hk
    | cons v r => exact ⟨v, r, rfl⟩
  have hnosep : ∀ v ∈ (v1 :: v2 :: rest2).map String.data, ',' ∉ v := by
    intro v hv
    obtain ⟨w, hw, rfl⟩ := List.mem_map.mp hv
    exact (hitems w hw).1
  have hsplit : split (String.mk (List.intercalate [','] ((v1 :: v2 :: rest2).map String.data))) ','
      = v1 :: v2 :: rest2 := by
    unfold split
    rw [splitChars_intercalate ',' _ (by simp) hnosep, List.map_map]
    simp [Function.comp_def]
  have hcomma : ',' ∈ (String.mk
      (List.intercalate [','] ((v1 :: v2 :: rest2).map String.data))).data := by
    simp [List.intercalate, List.intersperse]
  have hparen : ')' ∉ (String.mk
      (List.intercalate [','] ((v1 :: v2 :: rest2).map String.data))).data := by
    intro hc
    rcases mem_intercalate ',' ')' _ hc with h1 | ⟨v, hv, hcv⟩
    · exact absurd h1 (by decide)
    · obtain ⟨w, hw, rfl⟩ := List.mem_map.mp hv
      exact (hitems w hw).2 hcv
  generalize String.mk (List.intercalate [','] ((v1 :: v2 :: rest2).map String.data)) = value
    at hsplit hcomma hparen
  have htok : name ++ "=" ++ value = String.mk (name.data ++ '=' :: value.data) := by
    apply String.ext
    simp [String.data_append]
  have hn := paramName_of_append name.data value.data hname
  have e1 : String.mk name.data = name := rfl
  have e2 : String.mk value.data = value := rfl
  rw [on_featurelist_single, htok, hn.1, hn.2, e1, e2]
  exact featureBody_list sv name value v1 (v2 :: rest2) hproto hnew hcomma hparen hsplit

theorem list_token_recorded_witness :
    (2 ≤ ["#", "&", "!"].length ∧ '=' ∉ "CHANTYPES".data ∧ "CHANTYPES" ≠ "__proto__" ∧
      (∀ v ∈ ["#", "&", "!"], ',' ∉ v.data ∧ ')' ∉ v.data) ∧
      "CHANTYPES" ∉ keys (⟨[("NETWORK", .str "x")], none⟩ : Server).ISUPPORT) ∧
    on_featurelist ⟨[("NETWORK", .str "x")], none⟩
        ⟨["CHANTYPES" ++ "=" ++
            String.mk (List.intercalate [','] (["#", "&", "!"].map String.data)),
          "are supported by this server"]⟩
      = .ok ⟨(⟨[("NETWORK", .str "x")], none⟩ : Server).ISUPPORT
          ++ [("CHANTYPES", .arr ["#", "&", "!"])], none⟩ :=
  ⟨by decide,
    list_token_recorded ⟨[("NETWORK", .str "x")], none⟩ "CHANTYPES"
      "are supported by this server" ["#", "&", "!"] (by decide) (by decide) (by decide)
      (by decide) (by decide)⟩

/-- C12: the token `TARGMAX=a:1),b:2` has a comma and an item with `)`.  The
item `a:1)` is split at its first `:` and stored as `TARGMAX['a'] = '1)'`.
The item `b:2`, which has no `)`, is not split: the key and the value stay
`undefined` and the assignment, which is not guarded, stores the key
`undefined`; no key `b` is stored. -/
theorem submap_item_without_paren :
    on_featurelist ⟨[], none⟩ ⟨["TARGMAX=a:1),b:2", "are supported by this server"]⟩
      = .ok ⟨[("TARGMAX", .obj [("a", some "1)"), ("undefined", none)])], none⟩ := by
  decide

/-- C13: the token `CHANLIMIT=#:120)` has a non-empty value with no comma, one
`)` and the form `key:value`.  It is stored whole as the string `#:120)`,
on an empty registry and also over a sub-map that `CHANLIMIT` already holds:
the branch that splits such a value belongs to the test `value !== ''` and
runs for the empty value only, where it finds no `)`. -/
theorem colon_pair_stored_as_scalar :
    on_featurelist ⟨[], none⟩ ⟨["CHANLIMIT=#:120)", "are supported by this server"]⟩
      = .ok ⟨[("CHANLIMIT", .str "#:120)")], none⟩ ∧
    on_featurelist ⟨[("CHANLIMIT", .obj [("&", some "50")])], none⟩
        ⟨["CHANLIMIT=#:120)", "are supported by this server"]⟩
      = .ok ⟨[("CHANLIMIT", .str "#:120)")], none⟩ := by
  decide

/-- C14, as the claim states it, fails: `PREFIX=(v)+`, with no mode letter
`o`, raises a `TypeError`, and so does a list-valued `CHANTYPES=#,&` after
`CHANTYPES=#` has stored a string; in both events the token `NETWORK=x` that
follows is not recorded. -/
theorem featurelist_raises :
    on_featurelist ⟨[], none⟩ ⟨["PREFIX=(v)+", "NETWORK=x", "are supported by this server"]⟩
      = .threw ⟨[("PREFIX", .obj [])], some []⟩ ∧
    on_featurelist ⟨[], none⟩
        ⟨["CHANTYPES=#", "CHANTYPES=#,&", "NETWORK=x", "are supported by this server"]⟩
      = .threw ⟨[("CHANTYPES", .str "#")], none⟩ := by
  decide

/-- C14, amended: the tokens of an event are handled in order and the handling
ends at the first token that raises.  When the tokens `pre` complete and the
token `t` raises on the registry they leave, the event `pre, t, post` raises
with the registry as `t` left it, whatever `post` is.  A token `name=value`
with a non-empty value without comma, named neither `PREFIX` nor `__proto__`,
that follows tokens which complete is recorded as the string `value`.  An
event none of whose tokens is named `__proto__`, and whose tokens all are
without a value, or have a value without comma and are not named `PREFIX`,
completes. -/
theorem featurelist_stops_at_raise (sv : Server) (pre post : List String) (trailing : String) :
    (∀ sv1 sv2 t, on_featurelist sv ⟨pre ++ [trailing]⟩ = .ok sv1 →
      on_featurelist sv1 ⟨[t, trailing]⟩ = .threw sv2 →
      on_featurelist sv ⟨pre ++ t :: post ++ [trailing]⟩ = .threw sv2) ∧
    (∀ sv1 name value, on_featurelist sv ⟨pre ++ [trailing]⟩ = .ok sv1 →
      '=' ∉ name.data → name ≠ "__proto__" → name ≠ "PREFIX" →
      value ≠ "" → ',' ∉ value.data →
      on_featurelist sv ⟨pre ++ [name ++ "=" ++ value] ++ [trailing]⟩
        = .ok ⟨setProp sv1.ISUPPORT name (.str value), sv1.prefixes⟩) ∧
    ((∀ t ∈ pre, paramName t ≠ "__proto__" ∧
        (paramValue t = "" ∨ (',' ∉ (paramValue t).data ∧ paramName t ≠ "PREFIX"))) →
      ∃ sv1, on_featurelist sv ⟨pre ++ [trailing]⟩ = .ok sv1) := by
  refine ⟨?_, ?_, ?_⟩
  · intro sv1 sv2 t h1 h2
    simp only [on_featurelist, List.dropLast_concat] at h1
    have h3 : featureParam sv1 t = .threw sv2 := by
      simp only [on_featurelist, List.dropLast, featureParams] at h2
      cases hf : featureParam sv1 t with
      | ok x => rw [hf] at h2; simp [Outcome.andThen] at h2
      | threw x => rw [hf] at h2; simpa [Outcome.andThen] using h2
      | unmodelled => rw [hf] at h2; simp [Outcome.andThen] at h2
    have e : pre ++ t :: post ++ [trailing] = (pre ++ t :: post) ++ [trailing] := by simp
    rw [e]
    simp only [on_featurelist, List.dropLast_concat]
    rw [featureParams_append, h1]
    simp only [Outcome.andThen, featureParams, h3]
  · intro sv1 name value h1 hname hproto hprefix hv hc
    simp only [on_featurelist, List.dropLast_concat] at h1 ⊢
    have htok : name ++ "=" ++ value = String.mk (name.data ++ '=' :: value.data) := by
      apply String.ext
      simp [String.data_append]
    have hn := paramName_of_append name.data value.data hname
    have e1 : String.mk name.data = name := rfl
    have e2 : String.mk value.data = value := rfl
    rw [featureParams_append, h1]
    simp only [Outcome.andThen, featureParams]
    rw [featureParam_eq, htok, hn.1, hn.2, e1, e2,
      featureBody_scalar sv1 name value hproto hv hc hprefix]
  · intro h
    simp only [on_featurelist, List.dropLast_concat]
    exact featureParams_scalars pre sv h

theorem featurelist_stops_at_raise_witness :
    on_featurelist ⟨[], none⟩ ⟨["NETWORK=x"] ++ "PREFIX=(v)+" :: ["CHANTYPES=#"]
        ++ ["are supported by this server"]⟩
      = .threw ⟨[("NETWORK", .str "x"), ("PREFIX", .obj [])], some []⟩ ∧
    on_featurelist ⟨[], none⟩ ⟨["NETWORK=x"] ++ ["CHANTYPES" ++ "=" ++ "#"]
        ++ ["are supported by this server"]⟩
      = .ok ⟨setProp (⟨[("NETWORK", .str "x")], none⟩ : Server).ISUPPORT "CHANTYPES" (.str "#"),
          (⟨[("NETWORK", .str "x")], none⟩ : Server).prefixes⟩ ∧
    ∃ sv1, on_featurelist ⟨[], none⟩ ⟨["NETWORK=x"] ++ ["are supported by this server"]⟩
      = .ok sv1 :=
  ⟨(featurelist_stops_at_raise ⟨[], none⟩ ["NETWORK=x"] ["CHANTYPES=#"]
      "are supported by this server").1 ⟨[("NETWORK", .str "x")], none⟩
      ⟨[("NETWORK", .str "x"), ("PREFIX", .obj [])], some []⟩ "PREFIX=(v)+"
      (by decide) (by decide),
    (featurelist_stops_at_raise ⟨[], none⟩ ["NETWORK=x"] ["CHANTYPES=#"]
      "are supported by this server").2.1 ⟨[("NETWORK", .str "x")], none⟩ "CHANTYPES" "#"
      (by decide) (by decide) (by decide) (by decide) (by decide) (by decide),
    (featurelist_stops_at_raise ⟨[], none⟩ ["NETWORK=x"] ["CHANTYPES=#"]
      "are supported by this server").2.2 (by decide)⟩

/-! ## Properties of the channel store -/

/-- C15: six messages of the known user `bob` in `#athena`, stamped 60, 50,
40, 30, 20 and 10 by their `time` tags, are recorded one after the other.  The
ledger afterwards holds the entries stamped 50, 40, 30, 20, 10 in that order:
the comparator `(a, b) => a.time > b.time` answers `true` or `false` and never
a negative number, so `sort` leaves the ledger in arrival order, and
`slice(-5)` evicts the first arrival, which is the most recent message. -/
theorem seen_ledger_keeps_arrival_order :
    seenAll (fun s => s) 0 "bob"
        ⟨"Athena", [("#athena", ⟨[("bob", ⟨[], none⟩)], ["bob"], []⟩)], none, [], [], []⟩
        [(⟨"bob", "~bob@host", "#athena", ["m60"], [⟨some (some 60)⟩]⟩, "m60"),
          (⟨"bob", "~bob@host", "#athena", ["m50"], [⟨some (some 50)⟩]⟩, "m50"),
          (⟨"bob", "~bob@host", "#athena", ["m40"], [⟨some (some 40)⟩]⟩, "m40"),
          (⟨"bob", "~bob@host", "#athena", ["m30"], [⟨some (some 30)⟩]⟩, "m30"),
          (⟨"bob", "~bob@host", "#athena", ["m20"], [⟨some (some 20)⟩]⟩, "m20"),
          (⟨"bob", "~bob@host", "#athena", ["m10"], [⟨some (some 10)⟩]⟩, "m10")]
      = .ok ⟨"Athena",
          [("#athena",
            ⟨[("bob", ⟨[], some [⟨some 50, "m50"⟩, ⟨some 40, "m40"⟩, ⟨some 30, "m30"⟩,
                ⟨some 20, "m20"⟩, ⟨some 10, "m10"⟩]⟩)], ["bob"], []⟩)],
          none, [], [], []⟩ := by
  decide

/-- C16, as the claim states it, fails: a message to `#athena` from a sender
without a record, while the store has no channel `#athena`, raises a
`TypeError` at `this.channels[event.target].users` and sends nothing. -/
theorem seen_unknown_channel_raises :
    _update_seen_db (fun s => s) 0 ⟨"Athena", [], none, [], [], []⟩
        ⟨"bob", "~bob@host", "#athena", ["hello"], []⟩ "bob" "hello"
      = .threw ⟨"Athena", [], none, [], [], []⟩ := by
  decide

/-- C16, amended: for a message whose target channel is in the store and whose
sender has no record among the users of that channel, the sender's nick not
being a property name that objects inherit, `_update_seen_db` completes,
leaves the channels, `nextWHOChannel`, the calls of `add_entry` and the calls
on `irc` as they were, and sends exactly one line,
`WHO <channel> nuhs%nhuacr`. -/
theorem seen_unknown_sender_refreshes (strip_formatting : String → String) (now : Int)
    (st : Core) (event : IrcEvent) (nick str_args : String) (ch : Channel)
    (hch : getProp st.channels event.target = some ch)
    (huser : getProp ch.users nick = none) (hnick : nick ∉ inheritedKeys) :
    _update_seen_db strip_formatting now st event nick str_args
      = .ok { st with sent := st.sent ++ ["WHO " ++ event.target ++ " nuhs%nhuacr"] } := by
  unfold _update_seen_db
  simp only [lookupOwn_found _ _ _ hch, lookupOwn_missing _ _ huser hnick, Core.send]

theorem seen_unknown_sender_refreshes_witness :
    (getProp (⟨"Athena", [("#athena", ⟨[("alice", ⟨[], none⟩)], ["alice"], []⟩)], none,
        ["NAMES #athena"], [], []⟩ : Core).channels
        (⟨"bob", "~bob@host", "#athena", ["hello"], []⟩ : IrcEvent).target
      = some ⟨[("alice", ⟨[], none⟩)], ["alice"], []⟩ ∧
      getProp (⟨[("alice", ⟨[], none⟩)], ["alice"], []⟩ : Channel).users "bob" = none ∧
      "bob" ∉ inheritedKeys) ∧
    _update_seen_db (fun s => s) 0
        ⟨"Athena", [("#athena", ⟨[("alice", ⟨[], none⟩)], ["alice"], []⟩)], none,
          ["NAMES #athena"], [], []⟩
        ⟨"bob", "~bob@host", "#athena", ["hello"], []⟩ "bob" "hello"
      = .ok ⟨"Athena", [("#athena", ⟨[("alice", ⟨[], none⟩)], ["alice"], []⟩)], none,
          ["NAMES #athena", "WHO #athena nuhs%nhuacr"], [], []⟩ :=
  ⟨by decide,
    seen_unknown_sender_refreshes (fun s => s) 0
      ⟨"Athena", [("#athena", ⟨[("alice", ⟨[], none⟩)], ["alice"], []⟩)], none,
        ["NAMES #athena"], [], []⟩
      ⟨"bob", "~bob@host", "#athena", ["hello"], []⟩ "bob" "hello"
      ⟨[("alice", ⟨[], none⟩)], ["alice"], []⟩ (by decide) (by decide) (by decide)⟩

/-- C17: for every state and every event, `on_banlist`, `on_exceptlist` and
`on_quietlist` raise a `TypeError` before they read the event and leave the
state as it was: no mode letter is appended.  `_update_user_modes` starts with
`arguments.slice(0, 2)`, and in an arrow function `arguments` is the arguments
object of `init`, which has no `slice`.  So it is for the event that lists
the mask `$a:bob` for `#athena`, where `bob` is a user of `#athena`. -/
theorem mode_list_handlers_raise (st : Core) (event : IrcEvent) :
    on_banlist st event = .threw st ∧ on_exceptlist st event = .threw st ∧
    on_quietlist st event = .threw st ∧
    on_banlist ⟨"Athena", [("#athena", ⟨[("bob", ⟨[], none⟩)], ["bob"], []⟩)], none, [], [], []⟩
        ⟨"irc.example.net", "", "Athena", ["#athena", "$a:bob", "op!op@host", "1500000000"], []⟩
      = .threw
        ⟨"Athena", [("#athena", ⟨[("bob", ⟨[], none⟩)], ["bob"], []⟩)], none, [], [], []⟩ :=
  ⟨rfl, rfl, rfl, rfl⟩

/-- C18: for every session state and every event, the retry counter after
`on_saslfailed` is at least the counter before it, whatever the method and
whether or not the call throws; `run`, `on_authenticate` and `on_saslsuccess`
leave the counter as it was. -/
theorem retries_never_decrease (s : Sasl) (event : Event) (args : Option (List String)) :
    s.retries ≤ (s.on_saslfailed event).session.retries ∧
    (s.run args).session.retries = s.retries ∧
    (s.on_authenticate event).session.retries = s.retries ∧
    (s.on_saslsuccess event).session.retries = s.retries := by
  refine ⟨?_, ?_, ?_, ?_⟩
  · unfold Sasl.on_saslfailed
    simp only [Sasl.send]
    split
    · split
      · rename_i h
        simp only at h ⊢
        omega
      · simp
    · split
      · split <;> simp
      · simp
  · unfold Sasl.run
    simp only [Sasl.send]
    split
    · split <;> rfl
    · rfl
  · unfold Sasl.on_authenticate
    simp only [Sasl.send]
    split <;> rfl
  · rfl

/-- C19: for a `NAMREPLY` event that names a channel of the store whose names
list has no duplicates, `on_name` completes and changes that channel's names
list only: the new list has no duplicates, starts with the previous list, and
holds exactly the previous names and the listed names without their status.
A nick without status that is listed bare or with `@`, `+` or `@+`, in any
combination, is in the new list exactly once, without the status. -/
theorem on_name_keeps_names_distinct (st : Core) (event : IrcEvent) (channel list : String)
    (ch : Channel)
    (harg1 : event.arguments.get? 1 = some channel)
    (harg2 : event.arguments.get? 2 = some list)
    (hch : getProp st.channels channel = some ch) (hnd : ch.names.Nodup) :
    ∃ ch', on_name st event = .ok { st with channels := setProp st.channels channel ch' } ∧
      ch'.users = ch.users ∧ ch'.modes = ch.modes ∧
      ch'.names.Nodup ∧ ch.names <+: ch'.names ∧
      (∀ n, n ∈ ch'.names ↔ n ∈ ch.names ∨ n ∈ (split list ' ').map stripStatus) ∧
      ∀ n : String, ['@'].isPrefixOf n.data = false → ['+'].isPrefixOf n.data = false →
        (n ∈ split list ' ' ∨ "@" ++ n ∈ split list ' ' ∨ "+" ++ n ∈ split list ' ' ∨
          "@+" ++ n ∈ split list ' ') →
        ch'.names.count n = 1 := by
  obtain ⟨ch', h1, h2, h3, h4, h5, h6⟩ := nameLoop_spec channel (split list ' ') st ch hch hnd
  refine ⟨ch', ?_, h2, h3, h4, h5, h6, ?_⟩
  · simp only [on_name, harg2, harg1, template]
    exact h1
  · intro n hn1 hn2 hforms
    obtain ⟨f1, f2, f3, f4⟩ := stripStatus_forms n hn1 hn2
    have hmem : n ∈ ch'.names := by
      rw [h6]
      right
      rw [List.mem_map]
      rcases hforms with h | h | h | h
      · exact ⟨_, h, f1⟩
      · exact ⟨_, h, f2⟩
      · exact ⟨_, h, f3⟩
      · exact ⟨_, h, f4⟩
    exact List.count_eq_one_of_mem h4 hmem

theorem on_name_keeps_names_distinct_witness :
    ((⟨"irc.example.net", "", "Athena", ["=", "#athena", "@alice bob +bob @+carol carol"],
        []⟩ : IrcEvent).arguments.get? 1 = some "#athena" ∧
      (⟨"irc.example.net", "", "Athena", ["=", "#athena", "@alice bob +bob @+carol carol"],
        []⟩ : IrcEvent).arguments.get? 2 = some "@alice bob +bob @+carol carol" ∧
      getProp (⟨"Athena", [("#athena", ⟨[], ["alice"], []⟩)], none, [], [], []⟩ : Core).channels
        "#athena" = some ⟨[], ["alice"], []⟩ ∧
      (⟨[], ["alice"], []⟩ : Channel).names.Nodup) ∧
    on_name ⟨"Athena", [("#athena", ⟨[], ["alice"], []⟩)], none, [], [], []⟩
        ⟨"irc.example.net", "", "Athena", ["=", "#athena", "@alice bob +bob @+carol carol"], []⟩
      = .ok ⟨"Athena", [("#athena", ⟨[], ["alice", "bob", "carol"], []⟩)], none, [], [], []⟩ ∧
    ∃ ch' : Channel, ch'.names.Nodup ∧ ["alice"] <+: ch'.names ∧
      on_name ⟨"Athena", [("#athena", ⟨[], ["alice"], []⟩)], none, [], [], []⟩
        ⟨"irc.example.net", "", "Athena", ["=", "#athena", "@alice bob +bob @+carol carol"], []⟩
      = .ok ⟨"Athena", setProp [("#athena", ⟨[], ["alice"], []⟩)] "#athena" ch', none, [], [],
          []⟩ :=
  ⟨by decide, by decide, by
    obtain ⟨ch', h, -, -, hnodup, hstart, -⟩ := on_name_keeps_names_distinct
      ⟨"Athena", [("#athena", ⟨[], ["alice"], []⟩)], none, [], [], []⟩
      ⟨"irc.example.net", "", "Athena", ["=", "#athena", "@alice bob +bob @+carol carol"], []⟩
      "#athena" "@alice bob +bob @+carol carol" ⟨[], ["alice"], []⟩
      (by decide) (by decide) (by decide) (by decide)
    exact ⟨ch', hnodup, hstart, h⟩⟩

/-- C20: after the `JOIN` of another user to a channel with a non-empty name,
`nextWHOChannel` is that channel, and every `WHOSPCRPL` reply handled
afterwards whose nick is not `ChanServ` is filed by one call of `add_entry`
under that channel, whatever channel the reply names, with the nick of the
reply, and with the account `null` when the reply gives the account `0`; while
`nextWHOChannel` is unset or empty the reply is filed under its own channel;
and no handler of the channel store clears `nextWHOChannel`: `on_whospcrpl`,
`on_name`, the mode-list handlers, `_update_seen_db` and the bot's own `JOIN`
keep it, the `JOIN` of another user sets it to the channel joined. -/
theorem who_replies_follow_join (st : Core) (join : IrcEvent) (replies : List IrcEvent)
    (other : Core) (reply : IrcEvent)
    (hjoin : join.nick ≠ st.nickname) (htarget : join.target ≠ "")
    (hnick : ∀ r ∈ replies, r.arguments.get? 3 ≠ some "ChanServ")
    (hreply : reply.arguments.get? 3 ≠ some "ChanServ")
    (hunset : truthy other.nextWHOChannel = false) :
    (∃ st1 entries, on_join st join = .ok st1 ∧ st1.nextWHOChannel = some join.target ∧
      handleAll on_whospcrpl st1 replies = .ok { st1 with added := st1.added ++ entries } ∧
      entries.length = replies.length ∧
      ∀ i e r, entries.get? i = some e → replies.get? i = some r →
        e.channel = some join.target ∧ e.nick = r.arguments.get? 3 ∧
        (r.arguments.get? 4 = some "0" → e.account = Field.null)) ∧
    (∃ e, on_whospcrpl other reply = .ok { other with added := other.added ++ [e] } ∧
      e.channel = reply.arguments.get? 0 ∧ e.nick = reply.arguments.get? 3 ∧
      (reply.arguments.get? 4 = some "0" → e.account = Field.null)) ∧
    (∀ (s s' : Core) (event : IrcEvent),
      ((on_whospcrpl s event).core? = some s' ∨ (on_name s event).core? = some s' ∨
        (on_banlist s event).core? = some s' ∨ (on_exceptlist s event).core? = some s' ∨
        (on_quietlist s event).core? = some s' ∨
        (∃ strip_formatting now nick str_args,
          (_update_seen_db strip_formatting now s event nick str_args).core? = some s') ∨
        (event.nick = s.nickname ∧ (on_join s event).core? = some s')) →
      s'.nextWHOChannel = s.nextWHOChannel) ∧
    (∀ (s s' : Core) (event : IrcEvent), event.nick ≠ s.nickname →
      (on_join s event).core? = some s' → s'.nextWHOChannel = some event.target) := by
  refine ⟨?_, ?_, ?_, ?_⟩
  · have h1 : ∃ st1, on_join st join = .ok st1 ∧ st1.nextWHOChannel = some join.target := by
      unfold on_join
      rw [if_neg hjoin]
      exact ⟨_, rfl, rfl⟩
    obtain ⟨st1, h1, h2⟩ := h1
    obtain ⟨entries, k1, k2, k3⟩ := handleAll_whospcrpl join.target htarget replies st1 h2 hnick
    exact ⟨st1, entries, h1, h2, k1, k2, k3⟩
  · obtain ⟨e, h1, h2, _, h4, h5⟩ := on_whospcrpl_files other reply hreply
    exact ⟨e, h1, h4 hunset, h2, h5⟩
  · intro s s' event h
    rcases h with h | h | h | h | h | ⟨sf, now, nick, args, h⟩ | ⟨hn, h⟩
    · exact on_whospcrpl_next s s' event h
    · exact on_name_next s s' event h
    · simp only [on_banlist, update_user_modes_threw, Step.core?, Option.some.injEq] at h
      rw [← h]
    · simp only [on_exceptlist, update_user_modes_threw, Step.core?, Option.some.injEq] at h
      rw [← h]
    · simp only [on_quietlist, update_user_modes_threw, Step.core?, Option.some.injEq] at h
      rw [← h]
    · exact update_seen_db_next sf now s s' event nick args h
    · exact (on_join_next s s' event h).1 hn
  · intro s s' event hn h
    exact (on_join_next s s' event h).2 hn

theorem who_replies_follow_join_witness :
    ((⟨"bob", "~bob@host", "#athena", ["bobacct", "Bob"], []⟩ : IrcEvent).nick
        ≠ (⟨"Athena", [], none, [], [], []⟩ : Core).nickname ∧
      (⟨"bob", "~bob@host", "#athena", ["bobacct", "Bob"], []⟩ : IrcEvent).target ≠ "" ∧
      (∀ r ∈ [(⟨"irc.example.net", "", "Athena",
            ["#other", "~carol", "host", "carol", "0", "Carol"], []⟩ : IrcEvent)],
        r.arguments.get? 3 ≠ some "ChanServ") ∧
      (⟨"irc.example.net", "", "Athena", ["#other", "~carol", "host", "carol", "0", "Carol"],
        []⟩ : IrcEvent).arguments.get? 3 ≠ some "ChanServ" ∧
      truthy (⟨"Athena", [], none, [], [], []⟩ : Core).nextWHOChannel = false) ∧
    (on_join ⟨"Athena", [], none, [], [], []⟩
        ⟨"bob", "~bob@host", "#athena", ["bobacct", "Bob"], []⟩).andThen
      (fun st1 => handleAll on_whospcrpl st1
        [⟨"irc.example.net", "", "Athena", ["#other", "~carol", "host", "carol", "0", "Carol"],
          []⟩])
      = .ok ⟨"Athena", [], some "#athena", ["WHO bob nuhs%nhuacr"],
          [⟨some "#athena", some "bob", "~bob@host", .str "bobacct", none⟩,
            ⟨some "#athena", some "carol", "carol!~carol@host", .null, some "Carol"⟩], []⟩ ∧
    (∃ st1 entries,
      on_join ⟨"Athena", [], none, [], [], []⟩
        ⟨"bob", "~bob@host", "#athena", ["bobacct", "Bob"], []⟩ = .ok st1 ∧
      st1.nextWHOChannel = some "#athena" ∧
      handleAll on_whospcrpl st1
        [⟨"irc.example.net", "", "Athena", ["#other", "~carol", "host", "carol", "0", "Carol"],
          []⟩] = .ok { st1 with added := st1.added ++ entries } ∧
      entries.length = 1) ∧
    ∃ e : AddEntry,
      on_whospcrpl ⟨"Athena", [], none, [], [], []⟩
        ⟨"irc.example.net", "", "Athena", ["#other", "~carol", "host", "carol", "0", "Carol"], []⟩
        = .ok ⟨"Athena", [], none, [], [] ++ [e], []⟩ ∧
      e.channel = some "#other" :=
  ⟨by decide, by decide, by
    obtain ⟨⟨st1, entries, h1, h2, h3, h4, -⟩, -⟩ := who_replies_follow_join
      ⟨"Athena", [], none, [], [], []⟩
      ⟨"bob", "~bob@host", "#athena", ["bobacct", "Bob"], []⟩
      [⟨"irc.example.net", "", "Athena", ["#other", "~carol", "host", "carol", "0", "Carol"], []⟩]
      ⟨"Athena", [], none, [], [], []⟩
      ⟨"irc.example.net", "", "Athena", ["#other", "~carol", "host", "carol", "0", "Carol"], []⟩
      (by decide) (by decide) (by decide) (by decide) (by decide)
    exact ⟨st1, entries, h1, h2, h3, h4⟩, by
    obtain ⟨-, ⟨e, h1, h2, -⟩, -⟩ := who_replies_follow_join
      ⟨"Athena", [], none, [], [], []⟩
      ⟨"bob", "~bob@host", "#athena", ["bobacct", "Bob"], []⟩
      [⟨"irc.example.net", "", "Athena", ["#other", "~carol", "host", "carol", "0", "Carol"], []⟩]
      ⟨"Athena", [], none, [], [], []⟩
      ⟨"irc.example.net", "", "Athena", ["#other", "~carol", "host", "carol", "0", "Carol"], []⟩
      (by decide) (by decide) (by decide) (by decide) (by decide)
    exact ⟨e, h1, h2⟩⟩

end Athena
